import Mathlib

set_option autoImplicit false

/-!
Verification of the dynamic-configuration pipeline of the routed proxy:
reference sanitisation, configuration merge, entry-point model expansion,
the Gateway-API GRPC rule builder and status writers, the brotli response
writer, and the Kubernetes client lookup helpers.  Go maps are embedded as
association lists with overwrite-on-insert semantics; Go strings as `String`.
-/

namespace Traefik

/-! ## Association lists with Go-map write semantics -/

/-- Go `m[k] = v`: overwrite the entry for `k` (position of the entry is
irrelevant, Go maps are unordered). -/
def upsert {α : Type} (m : List (String × α)) (k : String) (v : α) : List (String × α) :=
  m.filter (fun p => p.1 != k) ++ [(k, v)]

/-- Go `delete(m, k)`. -/
def eraseKey {α : Type} (m : List (String × α)) (k : String) : List (String × α) :=
  m.filter (fun p => p.1 != k)

theorem lookup_filterNe {α : Type} (m : List (String × α)) (k : String) :
    (m.filter (fun p => p.1 != k)).lookup k = none := by
  induction m with
  | nil => rfl
  | cons hd tl ih =>
    by_cases h : hd.1 = k
    · simp [List.filter, h, ih]
    · simp only [List.filter]
      have hb : (hd.1 != k) = true := by simp [bne, h]
      rw [hb]
      simp only [List.lookup]
      have hb2 : (k == hd.1) = false := by
        simp only [beq_eq_false_iff_ne, ne_eq]
        intro he
        exact h he.symm
      rw [hb2, ih]

theorem lookup_upsert {α : Type} (m : List (String × α)) (k : String) (v : α) :
    (upsert m k v).lookup k = some v := by
  unfold upsert
  induction m with
  | nil => simp [List.lookup]
  | cons hd tl ih =>
    by_cases h : hd.1 = k
    · simpa [List.filter, bne, h] using ih
    · have hb : (hd.1 != k) = true := by simp [bne, h]
      have hb2 : (k == hd.1) = false := by
        simp only [beq_eq_false_iff_ne, ne_eq]
        intro he
        exact h he.symm
      simp only [List.filter, hb, List.cons_append, List.lookup, hb2]
      exact ih

theorem lookup_eraseKey {α : Type} (m : List (String × α)) (k : String) :
    (eraseKey m k).lookup k = none :=
  lookup_filterNe m k

/-! ## Go string helpers (embeddings of the `strings` stdlib calls used) -/

/-- Embedding of `strings.Split(s, sep)` for a one-character separator,
on the character list of the string. -/
def splitChar : List Char → Char → List (List Char)
  | [], _ => [[]]
  | c :: cs, sep =>
    if c == sep then [] :: splitChar cs sep
    else
      match splitChar cs sep with
      | [] => [[c]]
      | h :: t => (c :: h) :: t

/-- `splitChar` never returns the empty list. -/
theorem splitChar_ne_nil (l : List Char) (sep : Char) : splitChar l sep ≠ [] := by
  cases l with
  | nil => simp [splitChar]
  | cons c cs =>
    simp only [splitChar]
    by_cases h : c == sep
    · simp [h]
    · simp only [h]
      cases splitChar cs sep <;> simp

/-- A single-fragment split means the separator does not occur. -/
theorem splitChar_singleton_iff (l : List Char) (sep : Char) :
    (∃ x, splitChar l sep = [x]) ↔ sep ∉ l := by
  induction l with
  | nil =>
    constructor
    · intro _
      simp
    · intro _
      exact ⟨[], rfl⟩
  | cons c cs ih =>
    simp only [splitChar, List.mem_cons]
    by_cases h : c = sep
    · simp only [h, beq_self_eq_true, if_true]
      constructor
      · rintro ⟨x, hx⟩
        have := splitChar_ne_nil cs sep
        cases hsp : splitChar cs sep with
        | nil => exact absurd hsp this
        | cons a b =>
          rw [hsp] at hx
          simp at hx
      · intro hmem
        simp at hmem
    · have hb : (c == sep) = false := by simp [h]
      simp only [hb, Bool.false_eq_true, if_false]
      rcases hsp : splitChar cs sep with _ | ⟨hd, tl⟩
      · exact absurd hsp (splitChar_ne_nil cs sep)
      · constructor
        · rintro ⟨x, hx⟩
          have htl : tl = [] := by
            cases tl with
            | nil => rfl
            | cons a b => simp at hx
          subst htl
          have hcs : sep ∉ cs := ih.mp ⟨hd, hsp⟩
          intro hor
          rcases hor with h1 | h2
          · exact h h1.symm
          · exact hcs h2
        · intro hmem
          have hcs : sep ∉ cs := fun hc => hmem (Or.inr hc)
          rcases ih.mpr hcs with ⟨x, hx⟩
          rw [hsp] at hx
          injection hx with h1 h2
          subst h2
          exact ⟨c :: hd, rfl⟩

/-- Embedding of `strings.HasPrefix`. -/
def hasPrefixChars : List Char → List Char → Bool
  | [], _ => true
  | _ :: _, [] => false
  | a :: as, b :: bs => a == b && hasPrefixChars as bs

/-- Embedding of `strings.Contains(s, sub)` (does `sub` occur in `s`). -/
def containsChars : List Char → List Char → Bool
  | l, sub =>
    hasPrefixChars sub l ||
      match l with
      | [] => false
      | _ :: t => containsChars t sub

/-- `strings.Contains` on strings. -/
def strContains (s sub : String) : Bool :=
  containsChars s.data sub.data

/-! ## The dynamic data model (spec section 3)

Only the reference-carrying fields of the dynamic configuration tree are
modelled; payload-only fields (rules, server URLs, auth data, ...) are
omitted because no checked function reads them. -/

structure RouterTLSConfig where
  options : String := ""
  passthrough : Bool := false
deriving DecidableEq, Repr

structure Router where
  rule : String := ""
  entryPoints : List String := []
  service : String := ""
  middlewares : List String := []
  tls : Option RouterTLSConfig := none
deriving DecidableEq, Repr

structure MwChain where
  middlewares : List String := []
deriving DecidableEq, Repr

structure MwErrors where
  service : String := ""
deriving DecidableEq, Repr

/-- HTTP middleware: only the `Chain` and `Errors` variants carry references;
every other middleware kind is reference-free and is represented by both
options being `none`. -/
structure Middleware where
  chain : Option MwChain := none
  errors : Option MwErrors := none
deriving DecidableEq, Repr

structure WRRService where
  name : String := ""
  weight : Nat := 1
deriving DecidableEq, Repr

structure ServiceLoadBalancer where
  serversTransport : String := ""
deriving DecidableEq, Repr

structure ServiceWeighted where
  services : List WRRService := []
deriving DecidableEq, Repr

structure MirrorService where
  name : String := ""
deriving DecidableEq, Repr

structure ServiceMirroring where
  service : String := ""
  mirrors : List MirrorService := []
deriving DecidableEq, Repr

structure ServiceFailover where
  service : String := ""
  fallback : String := ""
deriving DecidableEq, Repr

structure Service where
  loadBalancer : Option ServiceLoadBalancer := none
  weighted : Option ServiceWeighted := none
  mirroring : Option ServiceMirroring := none
  failover : Option ServiceFailover := none
deriving DecidableEq, Repr

structure Model where
  middlewares : List String := []
  tls : Option RouterTLSConfig := none
deriving DecidableEq, Repr

structure ServersTransport where
deriving DecidableEq, Repr

structure TCPRouterTLSConfig where
  options : String := ""
  passthrough : Bool := false
deriving DecidableEq, Repr

structure TCPRouter where
  rule : String := ""
  entryPoints : List String := []
  service : String := ""
  tls : Option TCPRouterTLSConfig := none
deriving DecidableEq, Repr

structure TCPService where
  weighted : Option ServiceWeighted := none
deriving DecidableEq, Repr

structure TCPMiddleware where
deriving DecidableEq, Repr

structure UDPRouter where
  entryPoints : List String := []
  service : String := ""
deriving DecidableEq, Repr

structure UDPService where
  weighted : Option ServiceWeighted := none
deriving DecidableEq, Repr

structure Certificate where
  stores : List String := []
deriving DecidableEq, Repr

structure TLSStore where
deriving DecidableEq, Repr

structure TLSOptions where
  minVersion : String := ""
deriving DecidableEq, Repr

structure HTTPConfiguration where
  routers : List (String × Router) := []
  middlewares : List (String × Middleware) := []
  services : List (String × Service) := []
  models : List (String × Model) := []
  serversTransports : List (String × ServersTransport) := []
deriving DecidableEq, Repr

structure TCPConfiguration where
  routers : List (String × TCPRouter) := []
  middlewares : List (String × TCPMiddleware) := []
  services : List (String × TCPService) := []
deriving DecidableEq, Repr

structure UDPConfiguration where
  routers : List (String × UDPRouter) := []
  services : List (String × UDPService) := []
deriving DecidableEq, Repr

structure TLSConfiguration where
  certificates : List Certificate := []
  stores : List (String × TLSStore) := []
  options : List (String × TLSOptions) := []
deriving DecidableEq, Repr

structure Configuration where
  http : Option HTTPConfiguration := none
  tcp : Option TCPConfiguration := none
  udp : Option UDPConfiguration := none
  tls : Option TLSConfiguration := none
deriving DecidableEq, Repr

/-! ## isAllowedReference (provider/multi.go and server/configurationwatcher) -/

/-- Embedding of `isAllowedReference(name, pvd)`:
split on `@`; a bare name is allowed; otherwise the fragment after the first
`@` must either not contain `pvd` as substring or equal `pvd` exactly. -/
def isAllowedReference (name pvd : String) : Bool :=
  match splitChar name.data '@' with
  | [_] => true
  | _ :: pvdName :: _ =>
    if !containsChars pvdName pvd.data then true
    else pvdName == pvd.data
  | [] => true

/-- The claim's shape predicate, written from the spec's words: a reference is
one of the allowed shapes when it has no `@`, or its source part equals the
source, or its source part does not contain the source as substring. -/
def hasAllowedShape (name pvd : String) : Bool :=
  if '@' ∉ name.data then true
  else
    match splitChar name.data '@' with
    | _ :: sourcePart :: _ =>
      sourcePart == pvd.data || !containsChars sourcePart pvd.data
    | _ => true

theorem isAllowedReference_eq_hasAllowedShape_aux (name pvd : String) :
    isAllowedReference name pvd = hasAllowedShape name pvd := by
  unfold isAllowedReference hasAllowedShape
  by_cases hmem : '@' ∈ name.data
  · simp only [hmem, not_true_eq_false, if_false]
    rcases hsp : splitChar name.data '@' with _ | ⟨h0, tl⟩
    · exact absurd hsp (splitChar_ne_nil _ _)
    · cases tl with
      | nil =>
        exact absurd ((splitChar_singleton_iff name.data '@').mp ⟨h0, hsp⟩) (by simpa using hmem)
      | cons p rest =>
        by_cases hc : containsChars p pvd.data
        · simp [hc]
        · simp [hc]
  · simp only [hmem, not_false_eq_true, if_true]
    have : ∃ x, splitChar name.data '@' = [x] := (splitChar_singleton_iff name.data '@').mpr hmem
    rcases this with ⟨x, hx⟩
    rw [hx]

/-! ## sanitizeReferences: the per-source reference sanitiser

Embedding of `sanitizeReferences` and its `check*` helpers.  Crucially, the
call sites hand the check functions the *output* maps under construction
(`conf.HTTP.Middlewares`, `conf.HTTP.Services`, ...), not the input maps; the
embedding threads the partially built output maps the same way.  The Go
recursion in `checkMiddleware`/`check*Service` has no structural decrease, so
the embedding carries a fuel argument; fuel exhaustion reports failure, and
the call sites pass more fuel than any reachable recursion can consume
(nested lookups descend strictly along the insertion order of the partial
output map). -/

/-- `strings.Split(name, "@")` as a list of strings. -/
def nameParts (name : String) : List String :=
  (splitChar name.data '@').map (fun l => String.mk l)

/-- Embedding of `checkRouter` (TLS options and middleware checks included). -/
def checkRouter (pvd : String) (router : Router)
    (excludedServices excludedMiddlewares : List String) : Bool :=
  if excludedServices.contains router.service || !isAllowedReference router.service pvd then
    false
  else if (match router.tls with
           | some t => !isAllowedReference t.options pvd
           | none => false) then
    false
  else
    router.middlewares.all (fun m =>
      !excludedMiddlewares.contains m && isAllowedReference m pvd)

/-- Embedding of `checkTCPRouter`. -/
def checkTCPRouter (pvd : String) (router : TCPRouter)
    (excludedServices : List String) : Bool :=
  if excludedServices.contains router.service || !isAllowedReference router.service pvd then
    false
  else
    match router.tls with
    | some t => isAllowedReference t.options pvd
    | none => true

/-- Embedding of `checkUDPRouter`. -/
def checkUDPRouter (pvd : String) (router : UDPRouter)
    (excludedServices : List String) : Bool :=
  !excludedServices.contains router.service && isAllowedReference router.service pvd

/-- Embedding of `checkMiddleware`: checks the name, early-returns success for
names qualified with another provider, otherwise requires presence in the map
and recursively checks chain members and the errors service. -/
def checkMiddleware (pvd : String) : Nat → String → List (String × Middleware) → Bool
  | 0, _, _ => false
  | fuel + 1, middlewareName, middlewares =>
    if !isAllowedReference middlewareName pvd then false
    else
      let parts := nameParts middlewareName
      if parts.length > 1 && parts.getD 1 "" != pvd then true
      else
        match middlewares.lookup (parts.headD "") with
        | none => false
        | some middleware =>
          (match middleware.chain with
           | some c => c.middlewares.all (fun mid => checkMiddleware pvd fuel mid middlewares)
           | none => true) &&
          (match middleware.errors with
           | some e => isAllowedReference e.service pvd
           | none => true)

/-- Embedding of `checkService`. -/
def checkService (pvd : String) : Nat → String → List (String × Service) → Bool
  | 0, _, _ => false
  | fuel + 1, svcName, services =>
    if !isAllowedReference svcName pvd then false
    else
      let parts := nameParts svcName
      if parts.length > 1 && parts.getD 1 "" != pvd then true
      else
        match services.lookup (parts.headD "") with
        | none => false
        | some service =>
          (match service.loadBalancer with
           | some lb => isAllowedReference lb.serversTransport pvd
           | none => true) &&
          (match service.failover with
           | some f =>
             checkService pvd fuel f.service services &&
               checkService pvd fuel f.fallback services
           | none => true) &&
          (match service.weighted with
           | some w => w.services.all (fun s => checkService pvd fuel s.name services)
           | none => true) &&
          (match service.mirroring with
           | some m => m.mirrors.all (fun s => checkService pvd fuel s.name services)
           | none => true)

/-- Embedding of `checkTCPService`. -/
def checkTCPService (pvd : String) : Nat → String → List (String × TCPService) → Bool
  | 0, _, _ => false
  | fuel + 1, svcName, services =>
    if !isAllowedReference svcName pvd then false
    else
      let parts := nameParts svcName
      if parts.length > 1 && parts.getD 1 "" != pvd then true
      else
        match services.lookup (parts.headD "") with
        | none => false
        | some service =>
          match service.weighted with
          | some w => w.services.all (fun s => checkTCPService pvd fuel s.name services)
          | none => true

/-- Embedding of `checkUDPService`. -/
def checkUDPService (pvd : String) : Nat → String → List (String × UDPService) → Bool
  | 0, _, _ => false
  | fuel + 1, svcName, services =>
    if !isAllowedReference svcName pvd then false
    else
      let parts := nameParts svcName
      if parts.length > 1 && parts.getD 1 "" != pvd then true
      else
        match services.lookup (parts.headD "") with
        | none => false
        | some service =>
          match service.weighted with
          | some w => w.services.all (fun s => checkUDPService pvd fuel s.name services)
          | none => true

/-- The middleware pass of `sanitizeReferences`: first component is the
excluded-name set, second the partially built output map the checks run
against. -/
def sanitizeHTTPMiddlewares (pvd : String) (h : HTTPConfiguration) :
    List String × List (String × Middleware) :=
  h.middlewares.foldl
    (fun (acc : List String × List (String × Middleware)) nm =>
      if checkMiddleware pvd (h.middlewares.length + 2) nm.1 acc.2 then (acc.1, acc.2 ++ [nm])
      else (acc.1 ++ [nm.1], acc.2))
    ([], [])

/-- The HTTP service pass of `sanitizeReferences`. -/
def sanitizeHTTPServices (pvd : String) (h : HTTPConfiguration) :
    List String × List (String × Service) :=
  h.services.foldl
    (fun (acc : List String × List (String × Service)) nm =>
      if checkService pvd (h.services.length + 2) nm.1 acc.2 then (acc.1, acc.2 ++ [nm])
      else (acc.1 ++ [nm.1], acc.2))
    ([], [])

/-- The HTTP part of `sanitizeReferences`: middlewares and services are
checked against the partially built output maps (keeping the excluded names),
routers are pruned against the excluded sets, serversTransports are copied,
and models are *not* copied (the function allocates the Models map but never
fills it; see the `TODO handle copy of models ?` comment in the source). -/
def sanitizeHTTP (pvd : String) (h : HTTPConfiguration) : HTTPConfiguration :=
  { routers := h.routers.foldl
      (fun acc nm =>
        if checkRouter pvd nm.2 (sanitizeHTTPServices pvd h).1 (sanitizeHTTPMiddlewares pvd h).1
        then acc ++ [nm] else acc)
      []
    middlewares := (sanitizeHTTPMiddlewares pvd h).2
    services := (sanitizeHTTPServices pvd h).2
    models := []
    serversTransports := h.serversTransports }

/-- The TCP service pass of `sanitizeReferences`. -/
def sanitizeTCPServices (pvd : String) (t : TCPConfiguration) :
    List String × List (String × TCPService) :=
  t.services.foldl
    (fun (acc : List String × List (String × TCPService)) nm =>
      if checkTCPService pvd (t.services.length + 2) nm.1 acc.2 then (acc.1, acc.2 ++ [nm])
      else (acc.1 ++ [nm.1], acc.2))
    ([], [])

/-- The TCP part of `sanitizeReferences`: TCP middlewares are copied without
any check. -/
def sanitizeTCP (pvd : String) (t : TCPConfiguration) : TCPConfiguration :=
  { routers := t.routers.foldl
      (fun acc nm =>
        if checkTCPRouter pvd nm.2 (sanitizeTCPServices pvd t).1 then acc ++ [nm] else acc)
      []
    middlewares := t.middlewares
    services := (sanitizeTCPServices pvd t).2 }

/-- The UDP service pass of `sanitizeReferences`. -/
def sanitizeUDPServices (pvd : String) (u : UDPConfiguration) :
    List String × List (String × UDPService) :=
  u.services.foldl
    (fun (acc : List String × List (String × UDPService)) nm =>
      if checkUDPService pvd (u.services.length + 2) nm.1 acc.2 then (acc.1, acc.2 ++ [nm])
      else (acc.1 ++ [nm.1], acc.2))
    ([], [])

/-- The UDP part of `sanitizeReferences`. -/
def sanitizeUDP (pvd : String) (u : UDPConfiguration) : UDPConfiguration :=
  { routers := u.routers.foldl
      (fun acc nm =>
        if checkUDPRouter pvd nm.2 (sanitizeUDPServices pvd u).1 then acc ++ [nm] else acc)
      []
    services := (sanitizeUDPServices pvd u).2 }

/-- Embedding of `sanitizeReferences`: all four sections of the result are
freshly allocated; `nil` input sections become empty allocated sections, and
the TLS section is copied wholesale. -/
def sanitizeReferences (pvd : String) (configuration : Configuration) : Configuration :=
  { http := some (match configuration.http with
      | some h => sanitizeHTTP pvd h
      | none => {})
    tcp := some (match configuration.tcp with
      | some t => sanitizeTCP pvd t
      | none => {})
    udp := some (match configuration.udp with
      | some u => sanitizeUDP pvd u
      | none => {})
    tls := some (match configuration.tls with
      | some t => t
      | none => {}) }

/-- HTTP routers of a configuration (empty when the section is absent). -/
def httpRouters (c : Configuration) : List (String × Router) :=
  match c.http with
  | some h => h.routers
  | none => []

/-- HTTP middlewares of a configuration. -/
def httpMiddlewares (c : Configuration) : List (String × Middleware) :=
  match c.http with
  | some h => h.middlewares
  | none => []

/-- HTTP services of a configuration. -/
def httpServices (c : Configuration) : List (String × Service) :=
  match c.http with
  | some h => h.services
  | none => []

/-- TCP routers of a configuration. -/
def tcpRouters (c : Configuration) : List (String × TCPRouter) :=
  match c.tcp with
  | some t => t.routers
  | none => []

/-- TCP services of a configuration. -/
def tcpServices (c : Configuration) : List (String × TCPService) :=
  match c.tcp with
  | some t => t.services
  | none => []

/-- UDP routers of a configuration. -/
def udpRouters (c : Configuration) : List (String × UDPRouter) :=
  match c.udp with
  | some u => u.routers
  | none => []

/-- UDP services of a configuration. -/
def udpServices (c : Configuration) : List (String × UDPService) :=
  match c.udp with
  | some u => u.services
  | none => []

/-! ### Facts extracted from successful checks -/

theorem checkMiddleware_name_allowed (pvd : String) (fuel : Nat) (name : String)
    (mws : List (String × Middleware)) (h : checkMiddleware pvd fuel name mws = true) :
    isAllowedReference name pvd = true := by
  cases fuel with
  | zero => simp [checkMiddleware] at h
  | succ n =>
    by_cases ha : isAllowedReference name pvd
    · exact ha
    · simp [checkMiddleware, ha] at h

theorem checkService_name_allowed (pvd : String) (fuel : Nat) (name : String)
    (svcs : List (String × Service)) (h : checkService pvd fuel name svcs = true) :
    isAllowedReference name pvd = true := by
  cases fuel with
  | zero => simp [checkService] at h
  | succ n =>
    by_cases ha : isAllowedReference name pvd
    · exact ha
    · simp [checkService, ha] at h

theorem checkTCPService_name_allowed (pvd : String) (fuel : Nat) (name : String)
    (svcs : List (String × TCPService)) (h : checkTCPService pvd fuel name svcs = true) :
    isAllowedReference name pvd = true := by
  cases fuel with
  | zero => simp [checkTCPService] at h
  | succ n =>
    by_cases ha : isAllowedReference name pvd
    · exact ha
    · simp [checkTCPService, ha] at h

theorem checkUDPService_name_allowed (pvd : String) (fuel : Nat) (name : String)
    (svcs : List (String × UDPService)) (h : checkUDPService pvd fuel name svcs = true) :
    isAllowedReference name pvd = true := by
  cases fuel with
  | zero => simp [checkUDPService] at h
  | succ n =>
    by_cases ha : isAllowedReference name pvd
    · exact ha
    · simp [checkUDPService, ha] at h

theorem checkRouter_refs_allowed (pvd : String) (router : Router)
    (exS exM : List String) (h : checkRouter pvd router exS exM = true) :
    isAllowedReference router.service pvd = true ∧
      (∀ t, router.tls = some t → isAllowedReference t.options pvd = true) ∧
      (∀ m ∈ router.middlewares, isAllowedReference m pvd = true) := by
  unfold checkRouter at h
  split at h
  · exact absurd h (by simp)
  · rename_i h1
    split at h
    · exact absurd h (by simp)
    · rename_i h2
      simp only [Bool.or_eq_true, Bool.not_eq_true', not_or] at h1
      refine ⟨by simpa using h1.2, ?_, ?_⟩
      · intro t ht
        rw [ht] at h2
        simpa using h2
      · intro m hm
        have hmm := List.all_eq_true.mp h m hm
        simp only [Bool.and_eq_true] at hmm
        exact hmm.2

theorem checkTCPRouter_refs_allowed (pvd : String) (router : TCPRouter)
    (exS : List String) (h : checkTCPRouter pvd router exS = true) :
    isAllowedReference router.service pvd = true ∧
      (∀ t, router.tls = some t → isAllowedReference t.options pvd = true) := by
  unfold checkTCPRouter at h
  split at h
  · exact absurd h (by simp)
  · rename_i h1
    simp only [Bool.or_eq_true, Bool.not_eq_true', not_or] at h1
    refine ⟨by simpa using h1.2, ?_⟩
    intro t ht
    rw [ht] at h
    exact h

theorem checkUDPRouter_refs_allowed (pvd : String) (router : UDPRouter)
    (exS : List String) (h : checkUDPRouter pvd router exS = true) :
    isAllowedReference router.service pvd = true := by
  unfold checkUDPRouter at h
  simp only [Bool.and_eq_true] at h
  exact h.2

/-! ### Membership in the sanitiser's folds -/

theorem mem_filter_fold {α : Type} (P : α → Bool) (l : List α) :
    ∀ acc : List α,
      ∀ x ∈ l.foldl (fun acc nm => if P nm then acc ++ [nm] else acc) acc,
        x ∈ acc ∨ (x ∈ l ∧ P x = true) := by
  induction l with
  | nil =>
    intro acc x hx
    exact Or.inl hx
  | cons hd tl ih =>
    intro acc x hx
    rw [List.foldl_cons] at hx
    by_cases hc : P hd
    · rw [if_pos hc] at hx
      rcases ih (acc ++ [hd]) x hx with hmem | ⟨hmem, hP⟩
      · rcases List.mem_append.mp hmem with h1 | h2
        · exact Or.inl h1
        · have hxeq : x = hd := by simpa using h2
          subst hxeq
          exact Or.inr ⟨List.mem_cons_self x tl, hc⟩
      · exact Or.inr ⟨List.mem_cons_of_mem hd hmem, hP⟩
    · rw [if_neg hc] at hx
      rcases ih acc x hx with h1 | ⟨h2, hP⟩
      · exact Or.inl h1
      · exact Or.inr ⟨List.mem_cons_of_mem hd h2, hP⟩

theorem mem_check_fold {α : Type} (check : String → List (String × α) → Bool)
    (l : List (String × α)) :
    ∀ acc : List String × List (String × α),
      ∀ nm ∈ (l.foldl
        (fun (acc : List String × List (String × α)) nm =>
          if check nm.1 acc.2 then (acc.1, acc.2 ++ [nm])
          else (acc.1 ++ [nm.1], acc.2)) acc).2,
        nm ∈ acc.2 ∨ (nm ∈ l ∧ check nm.1 acc.2 = true ∨
          nm ∈ l ∧ ∃ m, check nm.1 m = true) := by
  induction l with
  | nil =>
    intro acc nm hnm
    exact Or.inl hnm
  | cons hd tl ih =>
    intro acc nm hnm
    rw [List.foldl_cons] at hnm
    by_cases hc : check hd.1 acc.2
    · rw [if_pos hc] at hnm
      rcases ih (acc.1, acc.2 ++ [hd]) nm hnm with hmem | hrest
      · rcases List.mem_append.mp hmem with h1 | h2
        · exact Or.inl h1
        · have hxeq : nm = hd := by simpa using h2
          subst hxeq
          exact Or.inr (Or.inr ⟨List.mem_cons_self nm tl, acc.2, hc⟩)
      · rcases hrest with ⟨hmem2, hchk⟩ | ⟨hmem2, m, hchk⟩
        · exact Or.inr (Or.inr ⟨List.mem_cons_of_mem hd hmem2, _, hchk⟩)
        · exact Or.inr (Or.inr ⟨List.mem_cons_of_mem hd hmem2, m, hchk⟩)
    · rw [if_neg hc] at hnm
      rcases ih (acc.1 ++ [hd.1], acc.2) nm hnm with hmem | hrest
      · exact Or.inl hmem
      · rcases hrest with ⟨hmem2, hchk⟩ | ⟨hmem2, m, hchk⟩
        · exact Or.inr (Or.inr ⟨List.mem_cons_of_mem hd hmem2, _, hchk⟩)
        · exact Or.inr (Or.inr ⟨List.mem_cons_of_mem hd hmem2, m, hchk⟩)


/-! ## Claim C9 -/

/-- C9: for every input configuration, including ones whose HTTP, TCP, UDP or
TLS section is absent, `sanitizeReferences` returns a configuration in which
all four sections are present (allocated), so no consumer of a sanitised
message observes a missing section. -/
theorem sanitizeReferences_allocates_all_sections :
    ∀ (pvd : String) (cfg : Configuration),
      (sanitizeReferences pvd cfg).http.isSome = true ∧
        (sanitizeReferences pvd cfg).tcp.isSome = true ∧
        (sanitizeReferences pvd cfg).udp.isSome = true ∧
        (sanitizeReferences pvd cfg).tls.isSome = true := by
  intro pvd cfg
  exact ⟨rfl, rfl, rfl, rfl⟩

/-! ## Claim C1 -/

/-- C1 (amended): `isAllowedReference` accepts a name exactly when it has one
of the three claimed shapes (no `@`, source part equal to the provider, or
source part not containing the provider as substring); and after sanitisation
every surviving HTTP/TCP/UDP router's direct references (service, TLS
options, middleware list) have one of these shapes, as does the stored name
of every surviving middleware and service.  (Nested references of
middlewares/services that are named under another source are not re-checked
by the sanitiser; see the counterexample.) -/
theorem sanitizer_allowed_reference_shapes :
    (∀ name pvd, isAllowedReference name pvd = hasAllowedShape name pvd) ∧
    (∀ pvd cfg, ∀ nr ∈ httpRouters (sanitizeReferences pvd cfg),
       hasAllowedShape nr.2.service pvd = true ∧
         (∀ t, nr.2.tls = some t → hasAllowedShape t.options pvd = true) ∧
         (∀ m ∈ nr.2.middlewares, hasAllowedShape m pvd = true)) ∧
    (∀ pvd cfg, ∀ nm ∈ httpMiddlewares (sanitizeReferences pvd cfg),
       hasAllowedShape nm.1 pvd = true) ∧
    (∀ pvd cfg, ∀ ns ∈ httpServices (sanitizeReferences pvd cfg),
       hasAllowedShape ns.1 pvd = true) ∧
    (∀ pvd cfg, ∀ nr ∈ tcpRouters (sanitizeReferences pvd cfg),
       hasAllowedShape nr.2.service pvd = true ∧
         (∀ t, nr.2.tls = some t → hasAllowedShape t.options pvd = true)) ∧
    (∀ pvd cfg, ∀ ns ∈ tcpServices (sanitizeReferences pvd cfg),
       hasAllowedShape ns.1 pvd = true) ∧
    (∀ pvd cfg, ∀ nr ∈ udpRouters (sanitizeReferences pvd cfg),
       hasAllowedShape nr.2.service pvd = true) ∧
    (∀ pvd cfg, ∀ ns ∈ udpServices (sanitizeReferences pvd cfg),
       hasAllowedShape ns.1 pvd = true) := by
  refine ⟨isAllowedReference_eq_hasAllowedShape_aux, ?_, ?_, ?_, ?_, ?_, ?_, ?_⟩
  · intro pvd cfg nr hnr
    simp only [httpRouters, sanitizeReferences] at hnr
    cases hcfg : cfg.http with
    | none =>
      rw [hcfg] at hnr
      simp at hnr
    | some h =>
      rw [hcfg] at hnr
      simp only [sanitizeHTTP] at hnr
      rcases mem_filter_fold _ _ [] nr hnr with hin | ⟨_, hchk⟩
      · simp at hin
      · have hall := checkRouter_refs_allowed _ _ _ _ hchk
        simp only [← isAllowedReference_eq_hasAllowedShape_aux]
        exact hall
  · intro pvd cfg nm hnm
    simp only [httpMiddlewares, sanitizeReferences] at hnm
    cases hcfg : cfg.http with
    | none =>
      rw [hcfg] at hnm
      simp at hnm
    | some h =>
      rw [hcfg] at hnm
      simp only [sanitizeHTTP, sanitizeHTTPMiddlewares] at hnm
      rcases mem_check_fold _ _ ([], []) nm hnm with hin | hrest
      · simp at hin
      · rw [← isAllowedReference_eq_hasAllowedShape_aux]
        rcases hrest with ⟨_, hchk⟩ | ⟨_, m, hchk⟩
        · exact checkMiddleware_name_allowed _ _ _ _ hchk
        · exact checkMiddleware_name_allowed _ _ _ _ hchk
  · intro pvd cfg ns hns
    simp only [httpServices, sanitizeReferences] at hns
    cases hcfg : cfg.http with
    | none =>
      rw [hcfg] at hns
      simp at hns
    | some h =>
      rw [hcfg] at hns
      simp only [sanitizeHTTP, sanitizeHTTPServices] at hns
      rcases mem_check_fold _ _ ([], []) ns hns with hin | hrest
      · simp at hin
      · rw [← isAllowedReference_eq_hasAllowedShape_aux]
        rcases hrest with ⟨_, hchk⟩ | ⟨_, m, hchk⟩
        · exact checkService_name_allowed _ _ _ _ hchk
        · exact checkService_name_allowed _ _ _ _ hchk
  · intro pvd cfg nr hnr
    simp only [tcpRouters, sanitizeReferences] at hnr
    cases hcfg : cfg.tcp with
    | none =>
      rw [hcfg] at hnr
      simp at hnr
    | some t =>
      rw [hcfg] at hnr
      simp only [sanitizeTCP] at hnr
      rcases mem_filter_fold _ _ [] nr hnr with hin | ⟨_, hchk⟩
      · simp at hin
      · have hall := checkTCPRouter_refs_allowed _ _ _ hchk
        simp only [← isAllowedReference_eq_hasAllowedShape_aux]
        exact hall
  · intro pvd cfg ns hns
    simp only [tcpServices, sanitizeReferences] at hns
    cases hcfg : cfg.tcp with
    | none =>
      rw [hcfg] at hns
      simp at hns
    | some t =>
      rw [hcfg] at hns
      simp only [sanitizeTCP, sanitizeTCPServices] at hns
      rcases mem_check_fold _ _ ([], []) ns hns with hin | hrest
      · simp at hin
      · rw [← isAllowedReference_eq_hasAllowedShape_aux]
        rcases hrest with ⟨_, hchk⟩ | ⟨_, m, hchk⟩
        · exact checkTCPService_name_allowed _ _ _ _ hchk
        · exact checkTCPService_name_allowed _ _ _ _ hchk
  · intro pvd cfg nr hnr
    simp only [udpRouters, sanitizeReferences] at hnr
    cases hcfg : cfg.udp with
    | none =>
      rw [hcfg] at hnr
      simp at hnr
    | some u =>
      rw [hcfg] at hnr
      simp only [sanitizeUDP] at hnr
      rcases mem_filter_fold _ _ [] nr hnr with hin | ⟨_, hchk⟩
      · simp at hin
      · rw [← isAllowedReference_eq_hasAllowedShape_aux]
        exact checkUDPRouter_refs_allowed _ _ _ hchk
  · intro pvd cfg ns hns
    simp only [udpServices, sanitizeReferences] at hns
    cases hcfg : cfg.udp with
    | none =>
      rw [hcfg] at hns
      simp at hns
    | some u =>
      rw [hcfg] at hns
      simp only [sanitizeUDP, sanitizeUDPServices] at hns
      rcases mem_check_fold _ _ ([], []) ns hns with hin | hrest
      · simp at hin
      · rw [← isAllowedReference_eq_hasAllowedShape_aux]
        rcases hrest with ⟨_, hchk⟩ | ⟨_, m, hchk⟩
        · exact checkUDPService_name_allowed _ _ _ _ hchk
        · exact checkUDPService_name_allowed _ _ _ _ hchk

/-- Witness for the amended C1 theorem: a concrete configuration from source
`foo` with one surviving router, checked through the theorem. -/
theorem sanitizer_allowed_reference_shapes_witness :
    hasAllowedShape "svc@other" "foo" = true := by
  have h := sanitizer_allowed_reference_shapes.2.1 "foo"
    { http := some { routers := [("r", { service := "svc@other" })] } }
    ("r", { service := "svc@other" })
  have hm : ("r", ({ service := "svc@other" } : Router)) ∈
      httpRouters (sanitizeReferences "foo"
        { http := some { routers := [("r", { service := "svc@other" })] } }) := by decide
  exact (h hm).1

/-- The configuration used to refute the original C1 claim: source `foo`
carries a middleware stored under the cross-source name `m@bar` whose chain
references `x@foobar`. -/
def c1CounterConfig : Configuration :=
  { http := some
      { middlewares := [("m@bar", { chain := some { middlewares := ["x@foobar"] } })] } }

/-- C1 counterexample: the middleware `m@bar` survives sanitisation for
source `foo` although its chain reference `x@foobar` has none of the three
allowed shapes (its source part `foobar` differs from `foo` and contains
`foo` as substring): the sanitiser early-returns for names qualified with
another source without checking their nested references. -/
theorem sanitizer_unsanitised_nested_reference :
    httpMiddlewares (sanitizeReferences "foo" c1CounterConfig) =
      [("m@bar", { chain := some { middlewares := ["x@foobar"] }, errors := none })] ∧
      hasAllowedShape "x@foobar" "foo" = false := by
  exact ⟨by decide, by decide⟩

/-! ## Claim C2: MultiProvider.Provide -/

/-- A provider message: the provider name and its configuration. -/
structure Message where
  providerName : String
  configuration : Configuration
deriving DecidableEq, Repr

/-- Embedding of the message flow of `MultiProvider.Provide`: the method
spawns a goroutine that sanitises messages arriving on `localChan` and
forwards them to `configurationChan`, but then hands the wrapped provider
`configurationChan` itself (`m.Provider.Provide(configurationChan, pool)`),
not `localChan`.  Consequently the messages the wrapped provider emits reach
the consumer directly, and nothing ever writes to `localChan`. -/
def multiProviderProvide (emitted : List Message) : List Message :=
  let configurationChan := emitted
  let localChan : List Message := []
  configurationChan ++
    localChan.map (fun msg =>
      { msg with configuration := sanitizeReferences msg.providerName msg.configuration })

/-- The failing input for C2: a message from source `foo` whose router
references `svc@foobar`, a reference the sanitiser would reject. -/
def c2FailingMessage : Message :=
  { providerName := "foo"
    configuration :=
      { http := some { routers := [("r", { service := "svc@foobar" })] } } }

/-- C2 evaluation at the failing input: the message is delivered to the
consumer unchanged even though sanitising it would drop router `r`
(`svc@foobar` is a disallowed reference for source `foo`), so an unsanitised
message reaches the consumer, contradicting the claim. -/
theorem multiProvider_forwards_unsanitised :
    multiProviderProvide [c2FailingMessage] = [c2FailingMessage] ∧
      sanitizeReferences c2FailingMessage.providerName c2FailingMessage.configuration ≠
        c2FailingMessage.configuration ∧
      httpRouters (sanitizeReferences c2FailingMessage.providerName
        c2FailingMessage.configuration) = [] := by
  refine ⟨rfl, by decide, by decide⟩

/-! ## Claim C3: mergeConfiguration -/

/-- Modelled from the spec: `provider.MakeQualifiedName` (not under `src/`)
qualifies a local name with its source, `localName@sourceName`. -/
def MakeQualifiedName (pvd name : String) : String :=
  name ++ "@" ++ pvd

/-- Modelled from the spec: the lego ACME-TLS/1 protocol tag
(`tlsalpn01.ACMETLS1Protocol`). -/
def acmeTLS1Protocol : String := "acme-tls/1"

/-- Embedding of `containsACMETLS1`. -/
def containsACMETLS1 (stores : List String) : Bool :=
  stores.contains acmeTLS1Protocol

/-- Modelled from the spec: the built-in default TLS option
(`tls.DefaultTLSOptions`); its contents are opaque for this development. -/
def DefaultTLSOptions : TLSOptions := { minVersion := "VersionTLS12" }

/-- `tls.DefaultTLSStoreName`. -/
def DefaultTLSStoreName : String := "default"

/-- `tls.DefaultTLSConfigName`. -/
def DefaultTLSConfigName : String := "default"

/-- Intermediate state of the provider loop of `mergeConfiguration`. -/
structure MergeState where
  http : HTTPConfiguration := {}
  tcp : TCPConfiguration := {}
  udp : UDPConfiguration := {}
  tls : TLSConfiguration := {}
  defaultTLSOptionProviders : List String := []
  defaultTLSStoreProviders : List String := []
deriving DecidableEq, Repr

/-- The HTTP section of one provider loop iteration: names are qualified,
routers without entry points inherit the defaults. -/
def mergeHTTPInto (defaultEntryPoints : List String) (pvd : String)
    (c : Configuration) (st : HTTPConfiguration) : HTTPConfiguration :=
  match c.http with
  | none => st
  | some h =>
    { routers := h.routers.foldl
        (fun m nm =>
          let router :=
            if nm.2.entryPoints.isEmpty then { nm.2 with entryPoints := defaultEntryPoints }
            else nm.2
          upsert m (MakeQualifiedName pvd nm.1) router)
        st.routers
      middlewares := h.middlewares.foldl
        (fun m nm => upsert m (MakeQualifiedName pvd nm.1) nm.2) st.middlewares
      services := h.services.foldl
        (fun m nm => upsert m (MakeQualifiedName pvd nm.1) nm.2) st.services
      models := h.models.foldl
        (fun m nm => upsert m (MakeQualifiedName pvd nm.1) nm.2) st.models
      serversTransports := h.serversTransports.foldl
        (fun m nm => upsert m (MakeQualifiedName pvd nm.1) nm.2) st.serversTransports }

/-- The TCP section of one provider loop iteration. -/
def mergeTCPInto (defaultEntryPoints : List String) (pvd : String)
    (c : Configuration) (st : TCPConfiguration) : TCPConfiguration :=
  match c.tcp with
  | none => st
  | some t =>
    { routers := t.routers.foldl
        (fun m nm =>
          let router :=
            if nm.2.entryPoints.isEmpty then { nm.2 with entryPoints := defaultEntryPoints }
            else nm.2
          upsert m (MakeQualifiedName pvd nm.1) router)
        st.routers
      middlewares := t.middlewares.foldl
        (fun m nm => upsert m (MakeQualifiedName pvd nm.1) nm.2) st.middlewares
      services := t.services.foldl
        (fun m nm => upsert m (MakeQualifiedName pvd nm.1) nm.2) st.services }

/-- The UDP section of one provider loop iteration. -/
def mergeUDPInto (pvd : String) (c : Configuration) (st : UDPConfiguration) :
    UDPConfiguration :=
  match c.udp with
  | none => st
  | some u =>
    { routers := u.routers.foldl
        (fun m nm => upsert m (MakeQualifiedName pvd nm.1) nm.2) st.routers
      services := u.services.foldl
        (fun m nm => upsert m (MakeQualifiedName pvd nm.1) nm.2) st.services }

/-- The TLS section of one provider loop iteration: ACME-tagged certificates
are admitted only from `tlsalpn.acme`; `default`-named stores and options
keep their name and record the claiming provider, all others are
qualified. -/
def mergeTLSInto (pvd : String) (c : Configuration)
    (tls : TLSConfiguration) (optPvds storePvds : List String) :
    TLSConfiguration × List String × List String :=
  match c.tls with
  | none => (tls, optPvds, storePvds)
  | some t =>
    let certs := tls.certificates ++
      t.certificates.filter (fun cert => !(containsACMETLS1 cert.stores && pvd != "tlsalpn.acme"))
    let storeAcc := t.stores.foldl
      (fun (acc : List (String × TLSStore) × List String) kv =>
        if kv.1 != DefaultTLSStoreName then
          (upsert acc.1 (MakeQualifiedName pvd kv.1) kv.2, acc.2)
        else (upsert acc.1 kv.1 kv.2, acc.2 ++ [pvd]))
      (tls.stores, storePvds)
    let optAcc := t.options.foldl
      (fun (acc : List (String × TLSOptions) × List String) kv =>
        if kv.1 != "default" then
          (upsert acc.1 (MakeQualifiedName pvd kv.1) kv.2, acc.2)
        else (upsert acc.1 kv.1 kv.2, acc.2 ++ [pvd]))
      (tls.options, optPvds)
    ({ certificates := certs, stores := storeAcc.1, options := optAcc.1 },
      optAcc.2, storeAcc.2)

/-- One provider loop iteration of `mergeConfiguration`. -/
def mergeProvider (defaultEntryPoints : List String) (st : MergeState)
    (pc : String × Configuration) : MergeState :=
  let t := mergeTLSInto pc.1 pc.2 st.tls st.defaultTLSOptionProviders st.defaultTLSStoreProviders
  { http := mergeHTTPInto defaultEntryPoints pc.1 pc.2 st.http
    tcp := mergeTCPInto defaultEntryPoints pc.1 pc.2 st.tcp
    udp := mergeUDPInto pc.1 pc.2 st.udp
    tls := t.1
    defaultTLSOptionProviders := t.2.1
    defaultTLSStoreProviders := t.2.2 }

/-- Embedding of `mergeConfiguration`: fold the provider loop, then resolve
the `default` TLS store and option: with more than one claimant the entry is
deleted; with no claimant the built-in default option is installed. -/
def mergeConfiguration (configurations : List (String × Configuration))
    (defaultEntryPoints : List String) : Configuration :=
  let st := configurations.foldl (mergeProvider defaultEntryPoints) {}
  let stores :=
    if st.defaultTLSStoreProviders.length > 1 then eraseKey st.tls.stores DefaultTLSStoreName
    else st.tls.stores
  let options :=
    if st.defaultTLSOptionProviders.length == 0 then
      upsert st.tls.options DefaultTLSConfigName DefaultTLSOptions
    else if st.defaultTLSOptionProviders.length > 1 then
      eraseKey st.tls.options DefaultTLSConfigName
    else st.tls.options
  { http := some st.http
    tcp := some st.tcp
    udp := some st.udp
    tls := some { certificates := st.tls.certificates, stores := stores, options := options } }

/-- Whether a per-source configuration defines the TLS option named `default`. -/
def definesDefaultTLSOption (c : Configuration) : Bool :=
  match c.tls with
  | some t => (t.options.lookup "default").isSome
  | none => false

/-- Whether a per-source configuration defines the TLS store named `default`. -/
def definesDefaultTLSStore (c : Configuration) : Bool :=
  match c.tls with
  | some t => (t.stores.lookup DefaultTLSStoreName).isSome
  | none => false

/-- TLS options of a configuration (empty when the section is absent). -/
def tlsOptionsOf (c : Configuration) : List (String × TLSOptions) :=
  match c.tls with
  | some t => t.options
  | none => []

/-- TLS stores of a configuration. -/
def tlsStoresOf (c : Configuration) : List (String × TLSStore) :=
  match c.tls with
  | some t => t.stores
  | none => []

theorem lookup_none_of_not_mem_keys {α : Type} (l : List (String × α)) (k : String)
    (h : k ∉ l.map Prod.fst) : l.lookup k = none := by
  induction l with
  | nil => rfl
  | cons hd tl ih =>
    simp only [List.map_cons, List.mem_cons, not_or] at h
    have hb : (k == hd.1) = false := by
      simp only [beq_eq_false_iff_ne, ne_eq]
      exact h.1
    simp only [List.lookup, hb]
    exact ih h.2

theorem filter_key_len_zero_of_not_mem {α : Type} (l : List (String × α)) (k : String)
    (h : k ∉ l.map Prod.fst) : (l.filter (fun kv => kv.1 == k)).length = 0 := by
  induction l with
  | nil => rfl
  | cons hd tl ih =>
    simp only [List.map_cons, List.mem_cons, not_or] at h
    have hb : (hd.1 == k) = false := by
      simp only [beq_eq_false_iff_ne, ne_eq]
      intro he
      exact h.1 he.symm
    simp only [List.filter, hb]
    exact ih h.2

theorem filter_key_len_of_nodup {α : Type} (l : List (String × α)) (k : String)
    (h : (l.map Prod.fst).Nodup) :
    (l.filter (fun kv => kv.1 == k)).length = if (l.lookup k).isSome then 1 else 0 := by
  induction l with
  | nil => rfl
  | cons hd tl ih =>
    rw [List.map_cons, List.nodup_cons] at h
    by_cases he : hd.1 = k
    · subst he
      have h0 := filter_key_len_zero_of_not_mem tl hd.1 h.1
      simp [List.filter, List.lookup, h0]
    · have hb : (hd.1 == k) = false := by
        simp only [beq_eq_false_iff_ne, ne_eq]
        exact he
      have hb2 : (k == hd.1) = false := by
        simp only [beq_eq_false_iff_ne, ne_eq]
        intro x
        exact he x.symm
      simp only [List.filter, hb, List.lookup, hb2]
      exact ih h.2

theorem tracker_fold_length {α β : Type} (f g : β → (String × α) → β) (k pvd : String)
    (l : List (String × α)) :
    ∀ (acc : β × List String),
      ((l.foldl (fun acc kv =>
        if kv.1 != k then (f acc.1 kv, acc.2) else (g acc.1 kv, acc.2 ++ [pvd])) acc).2).length
        = acc.2.length + (l.filter (fun kv => kv.1 == k)).length := by
  induction l with
  | nil =>
    intro acc
    simp
  | cons hd tl ih =>
    intro acc
    rw [List.foldl_cons]
    by_cases he : hd.1 = k
    · have hb : (hd.1 != k) = false := by simp [bne, he]
      have hbq : (hd.1 == k) = true := by simp [he]
      rw [hb]
      simp only [Bool.false_eq_true, if_false]
      rw [ih]
      simp [List.filter, hbq]
      omega
    · have hb : (hd.1 != k) = true := by simp [bne, he]
      have hbq : (hd.1 == k) = false := by
        simp only [beq_eq_false_iff_ne, ne_eq]
        exact he
      rw [hb]
      simp only [if_true]
      rw [ih]
      simp [List.filter, hbq]

theorem mergeTLSInto_optPvds_length (pvd : String) (c : Configuration)
    (tls : TLSConfiguration) (optPvds storePvds : List String)
    (hnodup : ((tlsOptionsOf c).map Prod.fst).Nodup) :
    ((mergeTLSInto pvd c tls optPvds storePvds).2.1).length =
      optPvds.length + (if definesDefaultTLSOption c then 1 else 0) := by
  unfold mergeTLSInto
  unfold tlsOptionsOf at hnodup
  unfold definesDefaultTLSOption
  cases hc : c.tls with
  | none => simp
  | some t =>
    rw [hc] at hnodup
    simp only []
    rw [tracker_fold_length (fun b kv => upsert b (MakeQualifiedName pvd kv.1) kv.2)
      (fun b kv => upsert b kv.1 kv.2) "default" pvd t.options (tls.options, optPvds)]
    rw [filter_key_len_of_nodup t.options "default" hnodup]

theorem mergeTLSInto_storePvds_length (pvd : String) (c : Configuration)
    (tls : TLSConfiguration) (optPvds storePvds : List String)
    (hnodup : ((tlsStoresOf c).map Prod.fst).Nodup) :
    ((mergeTLSInto pvd c tls optPvds storePvds).2.2).length =
      storePvds.length + (if definesDefaultTLSStore c then 1 else 0) := by
  unfold mergeTLSInto
  unfold tlsStoresOf at hnodup
  unfold definesDefaultTLSStore
  cases hc : c.tls with
  | none => simp
  | some t =>
    rw [hc] at hnodup
    simp only []
    rw [tracker_fold_length (fun b kv => upsert b (MakeQualifiedName pvd kv.1) kv.2)
      (fun b kv => upsert b kv.1 kv.2) DefaultTLSStoreName pvd t.stores (tls.stores, storePvds)]
    rw [filter_key_len_of_nodup t.stores DefaultTLSStoreName hnodup]

theorem merge_fold_optPvds_length (deps : List String)
    (cfgs : List (String × Configuration)) :
    ∀ st : MergeState,
      (∀ pc ∈ cfgs, ((tlsOptionsOf pc.2).map Prod.fst).Nodup) →
      ((cfgs.foldl (mergeProvider deps) st).defaultTLSOptionProviders).length =
        st.defaultTLSOptionProviders.length +
          (cfgs.filter (fun pc => definesDefaultTLSOption pc.2)).length := by
  induction cfgs with
  | nil =>
    intro st _
    simp
  | cons hd tl ih =>
    intro st hnodup
    rw [List.foldl_cons]
    rw [ih (mergeProvider deps st hd) (fun pc hpc => hnodup pc (List.mem_cons_of_mem hd hpc))]
    have hproj : (mergeProvider deps st hd).defaultTLSOptionProviders =
        (mergeTLSInto hd.1 hd.2 st.tls st.defaultTLSOptionProviders st.defaultTLSStoreProviders).2.1 := rfl
    rw [hproj, mergeTLSInto_optPvds_length hd.1 hd.2 _ _ _
      (hnodup hd (List.mem_cons_self hd tl))]
    by_cases hdef : definesDefaultTLSOption hd.2
    · simp [List.filter, hdef]
      omega
    · simp [List.filter, hdef]

theorem merge_fold_storePvds_length (deps : List String)
    (cfgs : List (String × Configuration)) :
    ∀ st : MergeState,
      (∀ pc ∈ cfgs, ((tlsStoresOf pc.2).map Prod.fst).Nodup) →
      ((cfgs.foldl (mergeProvider deps) st).defaultTLSStoreProviders).length =
        st.defaultTLSStoreProviders.length +
          (cfgs.filter (fun pc => definesDefaultTLSStore pc.2)).length := by
  induction cfgs with
  | nil =>
    intro st _
    simp
  | cons hd tl ih =>
    intro st hnodup
    rw [List.foldl_cons]
    rw [ih (mergeProvider deps st hd) (fun pc hpc => hnodup pc (List.mem_cons_of_mem hd hpc))]
    have hproj : (mergeProvider deps st hd).defaultTLSStoreProviders =
        (mergeTLSInto hd.1 hd.2 st.tls st.defaultTLSOptionProviders st.defaultTLSStoreProviders).2.2 := rfl
    rw [hproj, mergeTLSInto_storePvds_length hd.1 hd.2 _ _ _
      (hnodup hd (List.mem_cons_self hd tl))]
    by_cases hdef : definesDefaultTLSStore hd.2
    · simp [List.filter, hdef]
      omega
    · simp [List.filter, hdef]

/-- C3: after `mergeConfiguration` over any list of per-source configurations
(whose per-source TLS option and store maps have unique keys, as Go maps do):
if more than one source defines the TLS option named `default` the merged
configuration has no `default` TLS option; if no source defines it the
built-in default TLS option is present; and if more than one source defines
the `default` TLS store the merged configuration has no `default` TLS
store. -/
theorem mergeConfiguration_default_tls_resolution
    (cfgs : List (String × Configuration)) (deps : List String)
    (hopt : ∀ pc ∈ cfgs, ((tlsOptionsOf pc.2).map Prod.fst).Nodup)
    (hstore : ∀ pc ∈ cfgs, ((tlsStoresOf pc.2).map Prod.fst).Nodup) :
    (1 < (cfgs.filter (fun pc => definesDefaultTLSOption pc.2)).length →
       (tlsOptionsOf (mergeConfiguration cfgs deps)).lookup "default" = none) ∧
      ((cfgs.filter (fun pc => definesDefaultTLSOption pc.2)).length = 0 →
        (tlsOptionsOf (mergeConfiguration cfgs deps)).lookup "default" =
          some DefaultTLSOptions) ∧
      (1 < (cfgs.filter (fun pc => definesDefaultTLSStore pc.2)).length →
        (tlsStoresOf (mergeConfiguration cfgs deps)).lookup "default" = none) := by
  have hoptlen := merge_fold_optPvds_length deps cfgs {} hopt
  have hstorelen := merge_fold_storePvds_length deps cfgs {} hstore
  simp only [MergeState.defaultTLSOptionProviders, MergeState.defaultTLSStoreProviders,
    List.length_nil, Nat.zero_add] at hoptlen hstorelen
  refine ⟨?_, ?_, ?_⟩
  · intro hcnt
    simp only [mergeConfiguration, tlsOptionsOf]
    have h0 : (((cfgs.foldl (mergeProvider deps) {}).defaultTLSOptionProviders).length == 0) = false := by
      simp only [beq_eq_false_iff_ne, ne_eq]
      omega
    have h1 : ((cfgs.foldl (mergeProvider deps) {}).defaultTLSOptionProviders).length > 1 := by
      omega
    simp only [h0, Bool.false_eq_true, if_false, h1, if_true]
    exact lookup_eraseKey _ _
  · intro hcnt
    simp only [mergeConfiguration, tlsOptionsOf]
    have h0 : (((cfgs.foldl (mergeProvider deps) {}).defaultTLSOptionProviders).length == 0) = true := by
      simp only [beq_iff_eq]
      omega
    simp only [h0, if_true]
    exact lookup_upsert _ _ _
  · intro hcnt
    simp only [mergeConfiguration, tlsStoresOf]
    have h1 : ((cfgs.foldl (mergeProvider deps) {}).defaultTLSStoreProviders).length > 1 := by
      omega
    simp only [h1, if_true]
    exact lookup_eraseKey _ _

/-- Witness for C3: with two sources both defining `default` TLS options and
stores the merged configuration drops both; with no sources the built-in
default option is installed; established by applying the theorem at these
concrete inputs. -/
theorem mergeConfiguration_default_tls_resolution_witness :
    (tlsOptionsOf (mergeConfiguration
        [("a", { tls := some { options := [("default", {})], stores := [("default", {})] } }),
         ("b", { tls := some { options := [("default", {})], stores := [("default", {})] } })]
        [])).lookup "default" = none ∧
      (tlsStoresOf (mergeConfiguration
        [("a", { tls := some { options := [("default", {})], stores := [("default", {})] } }),
         ("b", { tls := some { options := [("default", {})], stores := [("default", {})] } })]
        [])).lookup "default" = none ∧
      (tlsOptionsOf (mergeConfiguration [("a", {})] [])).lookup "default" =
        some DefaultTLSOptions := by
  have h2 := mergeConfiguration_default_tls_resolution
    [("a", { tls := some { options := [("default", {})], stores := [("default", {})] } }),
     ("b", { tls := some { options := [("default", {})], stores := [("default", {})] } })]
    [] (by decide) (by decide)
  have h0 := mergeConfiguration_default_tls_resolution [("a", {})] [] (by decide) (by decide)
  exact ⟨h2.1 (by decide), h2.2.2 (by decide), h0.2.1 (by decide)⟩

/-! ## Claim C4: applyModel -/

/-- One inner-loop step of `applyModel` over a router's entry points: the
first accumulator component is the mutated router's accumulated non-model
entry points, the second the result map `rts`.  A model copy is built from
the original router (its TLS and middlewares are never mutated by the loop)
with the single entry point, model TLS when the router had none, and the
model's middlewares prepended; the copy is stored under `epName-name` when
the router listed more than one entry point.  Entry points without a model
accumulate on the pass-through router stored under the original name. -/
def applyModelStep (models : List (String × Model)) (name : String)
    (eps : List String) (rt : Router)
    (acc : List String × List (String × Router)) (epName : String) :
    List String × List (String × Router) :=
  match models.lookup (epName ++ "@internal") with
  | some m =>
    let cp : Router :=
      { rt with
        entryPoints := [epName]
        tls := match rt.tls with
          | none => m.tls
          | some t => some t
        middlewares := m.middlewares ++ rt.middlewares }
    let rtName := if eps.length > 1 then epName ++ "-" ++ name else name
    (acc.1, upsert acc.2 rtName cp)
  | none =>
    let acc1 := acc.1 ++ [epName]
    (acc1, upsert acc.2 name { rt with entryPoints := acc1 })

/-- Embedding of `applyModel`: unchanged when the HTTP section is absent or
has no models, otherwise every router is expanded per entry point into a
fresh router map. -/
def applyModelRouters (models : List (String × Model))
    (routers : List (String × Router)) : List (String × Router) :=
  routers.foldl
    (fun rts nmrt =>
      (nmrt.2.entryPoints.foldl
        (applyModelStep models nmrt.1 nmrt.2.entryPoints nmrt.2)
        ([], rts)).2)
    []

def applyModel (cfg : Configuration) : Configuration :=
  match cfg.http with
  | none => cfg
  | some http =>
    if http.models.isEmpty then cfg
    else
      { cfg with http := some { http with routers := applyModelRouters http.models http.routers } }

/-- HTTP models of a configuration. -/
def httpModels (c : Configuration) : List (String × Model) :=
  match c.http with
  | some h => h.models
  | none => []

/-- The model applying to an entry point, looked up as `epName@internal`. -/
def modelFor (models : List (String × Model)) (ep : String) : Option Model :=
  models.lookup (ep ++ "@internal")

/-- The name of the expanded per-entry-point router copy. -/
def expandedName (eps : List String) (name ep : String) : String :=
  if eps.length > 1 then ep ++ "-" ++ name else name

/-- The expanded per-entry-point router copy. -/
def expandedRouter (rt : Router) (ep : String) (m : Model) : Router :=
  { rt with
    entryPoints := [ep]
    tls := match rt.tls with
      | none => m.tls
      | some t => some t
    middlewares := m.middlewares ++ rt.middlewares }

/-- Entry points of a router that have no model. -/
def passEps (models : List (String × Model)) (eps : List String) : List String :=
  eps.filter (fun ep => (modelFor models ep).isNone)

/-- Entry points of a router that have a model. -/
def modelEps (models : List (String × Model)) (eps : List String) : List String :=
  eps.filter (fun ep => (modelFor models ep).isSome)

/-- The names of the expanded copies a suffix of entry points will produce. -/
def modelNames (models : List (String × Model)) (eps : List String) (name : String)
    (l : List String) : List String :=
  (modelEps models l).map (expandedName eps name)

/-- All router names produced by `applyModel` for one input router. -/
def producedNames (models : List (String × Model)) (nm : String × Router) : List String :=
  modelNames models nm.2.entryPoints nm.1 nm.2.entryPoints ++
    (if (passEps models nm.2.entryPoints).isEmpty then [] else [nm.1])

/-- Keys of an association list. -/
def keysOf {α : Type} (m : List (String × α)) : List String :=
  m.map Prod.fst

/-- The entries of an association list under one key. -/
def keyEntries {α : Type} (k : String) (m : List (String × α)) : List (String × α) :=
  m.filter (fun p => p.1 == k)

/-- Total number of entry-point slots of a router map: the pair-preservation
measure of the claim. -/
def routersEpCount (m : List (String × Router)) : Nat :=
  (m.map (fun p => p.2.entryPoints.length)).sum

/-- Entry-point slot count of a configuration's HTTP routers. -/
def configEpCount (cfg : Configuration) : Nat :=
  routersEpCount (httpRouters cfg)

theorem mem_upsert_self {α : Type} (m : List (String × α)) (k : String) (v : α) :
    (k, v) ∈ upsert m k v := by
  unfold upsert
  simp

theorem mem_upsert_iff_of_ne {α : Type} (m : List (String × α)) (k : String) (v : α)
    (p : String × α) (h : p.1 ≠ k) : p ∈ upsert m k v ↔ p ∈ m := by
  unfold upsert
  constructor
  · intro hp
    rcases List.mem_append.mp hp with h1 | h2
    · exact (List.mem_filter.mp h1).1
    · exfalso
      apply h
      have : p = (k, v) := by simpa using h2
      rw [this]
  · intro hp
    apply List.mem_append.mpr
    left
    apply List.mem_filter.mpr
    refine ⟨hp, ?_⟩
    simp [bne, h]

theorem upsert_eq_append {α : Type} (m : List (String × α)) (k : String) (v : α)
    (h : k ∉ keysOf m) : upsert m k v = m ++ [(k, v)] := by
  unfold upsert
  congr 1
  apply List.filter_eq_self.mpr
  intro p hp
  have : p.1 ≠ k := by
    intro he
    apply h
    rw [← he]
    exact List.mem_map_of_mem Prod.fst hp
  simp [bne, this]

theorem mem_of_keyEntries {α : Type} (k : String) (m : List (String × α))
    (p : String × α) (h : p ∈ keyEntries k m) : p ∈ m :=
  (List.mem_filter.mp h).1

theorem keyEntries_upsert_self {α : Type} (m : List (String × α)) (k : String) (v : α) :
    keyEntries k (upsert m k v) = [(k, v)] := by
  unfold keyEntries upsert
  rw [List.filter_append]
  have h1 : (m.filter (fun p => p.1 != k)).filter (fun p => p.1 == k) = [] := by
    rw [List.filter_filter]
    apply List.filter_eq_nil.mpr
    intro p _
    by_cases he : p.1 = k <;> simp [he, bne]
  rw [h1]
  simp

theorem keyEntries_upsert_ne {α : Type} (m : List (String × α)) (k k2 : String) (v : α)
    (h : k2 ≠ k) : keyEntries k2 (upsert m k v) = keyEntries k2 m := by
  unfold keyEntries upsert
  rw [List.filter_append]
  have hkk : (k == k2) = false := by
    simp only [beq_eq_false_iff_ne, ne_eq]
    intro he
    exact h he.symm
  have h1 : ([(k, v)].filter (fun p => p.1 == k2)) = [] := by
    simp [List.filter, hkk]
  rw [h1, List.append_nil, List.filter_filter]
  apply List.filter_congr
  intro p _
  by_cases he : p.1 = k2
  · have hne : p.1 ≠ k := by
      rw [he]
      exact h
    simp [he, bne, hne, h]
  · simp [he]

theorem keyEntries_eq_nil_of_not_mem {α : Type} (k : String) (m : List (String × α))
    (h : k ∉ keysOf m) : keyEntries k m = [] := by
  unfold keyEntries
  apply List.filter_eq_nil.mpr
  intro p hp
  intro hbeq
  apply h
  have : p.1 = k := by simpa using hbeq
  rw [← this]
  exact List.mem_map_of_mem Prod.fst hp

theorem routersEpCount_append (a b : List (String × Router)) :
    routersEpCount (a ++ b) = routersEpCount a + routersEpCount b := by
  unfold routersEpCount
  rw [List.map_append, List.sum_append]

theorem routersEpCount_partition (m : List (String × Router)) (k : String) :
    routersEpCount m =
      routersEpCount (keyEntries k m) + routersEpCount (m.filter (fun p => p.1 != k)) := by
  unfold routersEpCount keyEntries
  induction m with
  | nil => rfl
  | cons hd tl ih =>
    by_cases he : hd.1 = k
    · have hb : (hd.1 == k) = true := by simp [he]
      have hb2 : (hd.1 != k) = false := by simp [bne, he]
      simp only [List.filter, hb, hb2, List.map_cons, List.sum_cons]
      omega
    · have hb : (hd.1 == k) = false := by simp [he]
      have hb2 : (hd.1 != k) = true := by simp [bne, he]
      simp only [List.filter, hb, hb2, List.map_cons, List.sum_cons]
      omega

theorem routersEpCount_upsert (m : List (String × Router)) (k : String) (v : Router) :
    routersEpCount (upsert m k v) =
      routersEpCount (m.filter (fun p => p.1 != k)) + v.entryPoints.length := by
  unfold upsert
  rw [routersEpCount_append]
  unfold routersEpCount
  simp

theorem not_mem_keysOf_upsert {α : Type} (m : List (String × α)) (k k2 : String) (v : α)
    (h1 : k2 ∉ keysOf m) (h2 : k2 ≠ k) : k2 ∉ keysOf (upsert m k v) := by
  unfold keysOf upsert
  rw [List.map_append, List.mem_append]
  rintro (ha | hb)
  · apply h1
    rcases List.mem_map.mp ha with ⟨p, hp, hpe⟩
    rw [← hpe]
    exact List.mem_map_of_mem Prod.fst (List.mem_filter.mp hp).1
  · apply h2
    simpa using hb

theorem expandedName_ne (eps : List String) (name ep : String) (h : eps.length > 1) :
    expandedName eps name ep ≠ name := by
  unfold expandedName
  rw [if_pos h]
  intro he
  have := congrArg String.length he
  rw [String.length_append, String.length_append] at this
  have hone : "-".length = 1 := rfl
  omega

theorem modelNames_cons_some (models : List (String × Model)) (eps : List String)
    (name hd : String) (tl : List String) (h : (modelFor models hd).isSome = true) :
    modelNames models eps name (hd :: tl) =
      expandedName eps name hd :: modelNames models eps name tl := by
  unfold modelNames modelEps
  rw [List.filter_cons, if_pos (by simp [h])]
  rfl

theorem modelNames_cons_none (models : List (String × Model)) (eps : List String)
    (name hd : String) (tl : List String) (h : (modelFor models hd).isSome = false) :
    modelNames models eps name (hd :: tl) = modelNames models eps name tl := by
  unfold modelNames modelEps
  rw [List.filter_cons, if_neg (by simp [h])]

theorem passEps_cons_some (models : List (String × Model)) (hd : String)
    (tl : List String) (h : (modelFor models hd).isSome = true) :
    passEps models (hd :: tl) = passEps models tl := by
  unfold passEps
  rw [List.filter_cons, if_neg (by simp [Option.isNone_iff_eq_none]; exact Option.isSome_iff_ne_none.mp h)]

theorem passEps_cons_none (models : List (String × Model)) (hd : String)
    (tl : List String) (h : modelFor models hd = none) :
    passEps models (hd :: tl) = hd :: passEps models tl := by
  unfold passEps
  rw [List.filter_cons, if_pos (by simp [h])]

theorem modelEps_cons_some (models : List (String × Model)) (hd : String)
    (tl : List String) (h : (modelFor models hd).isSome = true) :
    modelEps models (hd :: tl) = hd :: modelEps models tl := by
  unfold modelEps
  rw [List.filter_cons, if_pos (by simp [h])]

theorem modelEps_cons_none (models : List (String × Model)) (hd : String)
    (tl : List String) (h : modelFor models hd = none) :
    modelEps models (hd :: tl) = modelEps models tl := by
  unfold modelEps
  rw [List.filter_cons, if_neg (by simp [h])]

theorem applyModelStep_model (models : List (String × Model)) (name : String)
    (eps : List String) (rt : Router) (accEps : List String)
    (rts : List (String × Router)) (hd : String) (m : Model)
    (h : modelFor models hd = some m) :
    applyModelStep models name eps rt (accEps, rts) hd =
      (accEps, upsert rts (expandedName eps name hd) (expandedRouter rt hd m)) := by
  unfold applyModelStep
  unfold modelFor at h
  rw [h]
  rfl

theorem applyModelStep_pass (models : List (String × Model)) (name : String)
    (eps : List String) (rt : Router) (accEps : List String)
    (rts : List (String × Router)) (hd : String)
    (h : modelFor models hd = none) :
    applyModelStep models name eps rt (accEps, rts) hd =
      (accEps ++ [hd], upsert rts name { rt with entryPoints := accEps ++ [hd] }) := by
  unfold applyModelStep
  unfold modelFor at h
  rw [h]

theorem mem_keysOf_iff {α : Type} (m : List (String × α)) (k : String) :
    k ∈ keysOf m ↔ ∃ v, (k, v) ∈ m := by
  unfold keysOf
  constructor
  · intro h
    rcases List.mem_map.mp h with ⟨p, hp, he⟩
    exact ⟨p.2, by rwa [← he, Prod.mk.eta] ⟩
  · rintro ⟨v, hv⟩
    exact List.mem_map_of_mem Prod.fst hv

theorem applyModel_inner_allmodel (models : List (String × Model)) (name : String)
    (eps : List String) (rt : Router) :
    ∀ (l : List String) (accEps : List String) (rts : List (String × Router)),
      (∀ ep ∈ l, (modelFor models ep).isSome = true) →
      (modelNames models eps name l).Nodup →
      (∀ k ∈ modelNames models eps name l, k ∉ keysOf rts) →
      (l.foldl (applyModelStep models name eps rt) (accEps, rts)).1 = accEps ∧
        (∀ ep ∈ l, ∀ m, modelFor models ep = some m →
          (expandedName eps name ep, expandedRouter rt ep m) ∈
            (l.foldl (applyModelStep models name eps rt) (accEps, rts)).2) ∧
        (∀ p : String × Router, p.1 ∉ modelNames models eps name l →
          (p ∈ (l.foldl (applyModelStep models name eps rt) (accEps, rts)).2 ↔ p ∈ rts)) ∧
        routersEpCount (l.foldl (applyModelStep models name eps rt) (accEps, rts)).2 =
          routersEpCount rts + l.length := by
  intro l
  induction l with
  | nil =>
    intro accEps rts _ _ _
    refine ⟨rfl, ?_, ?_, by simp⟩
    · intro ep hep
      exact absurd hep (List.not_mem_nil ep)
    · intro p _
      exact Iff.rfl
  | cons hd tl ih =>
    intro accEps rts hall hnodup hfresh
    have hhd : (modelFor models hd).isSome = true := hall hd (List.mem_cons_self hd tl)
    rcases Option.isSome_iff_exists.mp hhd with ⟨m, hm⟩
    rw [List.foldl_cons, applyModelStep_model models name eps rt accEps rts hd m hm]
    have hmodelNames : modelNames models eps name (hd :: tl) =
        expandedName eps name hd :: modelNames models eps name tl :=
      modelNames_cons_some models eps name hd tl hhd
    rw [hmodelNames] at hnodup hfresh
    have hmnotin : expandedName eps name hd ∉ modelNames models eps name tl :=
      (List.nodup_cons.mp hnodup).1
    have hnodup2 := (List.nodup_cons.mp hnodup).2
    have hmfresh : expandedName eps name hd ∉ keysOf rts :=
      hfresh _ (List.mem_cons_self _ _)
    have hfresh2 : ∀ k ∈ modelNames models eps name tl,
        k ∉ keysOf (upsert rts (expandedName eps name hd) (expandedRouter rt hd m)) := by
      intro k hk
      exact not_mem_keysOf_upsert rts (expandedName eps name hd) k (expandedRouter rt hd m)
        (hfresh k (List.mem_cons_of_mem _ hk))
        (fun he => hmnotin (he ▸ hk))
    rcases ih accEps (upsert rts (expandedName eps name hd) (expandedRouter rt hd m))
      (fun ep hep => hall ep (List.mem_cons_of_mem hd hep)) hnodup2 hfresh2 with
      ⟨ha, hb, hframe, hcount⟩
    refine ⟨ha, ?_, ?_, ?_⟩
    · intro ep hep m2 hm2
      rcases List.mem_cons.mp hep with he | he
      · subst he
        have hme : m2 = m := by
          rw [hm] at hm2
          exact (Option.some.inj hm2).symm
        subst hme
        rw [hframe (expandedName eps name ep, expandedRouter rt ep m2) hmnotin]
        exact mem_upsert_self rts _ _
      · exact hb ep he m2 hm2
    · intro p hp
      rw [hmodelNames] at hp
      simp only [List.mem_cons, not_or] at hp
      rw [hframe p hp.2]
      exact mem_upsert_iff_of_ne rts _ _ p hp.1
    · rw [hcount]
      have hup : routersEpCount (upsert rts (expandedName eps name hd) (expandedRouter rt hd m)) =
          routersEpCount rts + 1 := by
        rw [upsert_eq_append rts _ _ hmfresh, routersEpCount_append]
        have hcp1 : (expandedRouter rt hd m).entryPoints = [hd] := rfl
        simp [routersEpCount, hcp1]
      rw [hup]
      simp only [List.length_cons]
      omega

theorem applyModel_inner_general (models : List (String × Model)) (name : String)
    (eps : List String) (rt : Router) :
    ∀ (l : List String) (accEps : List String) (rts : List (String × Router)),
      (modelNames models eps name l).Nodup →
      (∀ k ∈ modelNames models eps name l, k ∉ keysOf rts ∧ k ≠ name) →
      keyEntries name rts =
        (if accEps.isEmpty then []
         else [(name, { rt with entryPoints := accEps })]) →
      (l.foldl (applyModelStep models name eps rt) (accEps, rts)).1 =
          accEps ++ passEps models l ∧
        (∀ ep ∈ l, ∀ m, modelFor models ep = some m →
          (expandedName eps name ep, expandedRouter rt ep m) ∈
            (l.foldl (applyModelStep models name eps rt) (accEps, rts)).2) ∧
        keyEntries name (l.foldl (applyModelStep models name eps rt) (accEps, rts)).2 =
          (if (accEps ++ passEps models l).isEmpty then []
           else [(name, { rt with entryPoints := accEps ++ passEps models l })]) ∧
        (∀ p : String × Router, p.1 ≠ name → p.1 ∉ modelNames models eps name l →
          (p ∈ (l.foldl (applyModelStep models name eps rt) (accEps, rts)).2 ↔ p ∈ rts)) ∧
        routersEpCount (l.foldl (applyModelStep models name eps rt) (accEps, rts)).2 =
          routersEpCount rts + (modelEps models l).length + (passEps models l).length := by
  intro l
  induction l with
  | nil =>
    intro accEps rts _ _ hinv
    have hpe : passEps models [] = [] := rfl
    have hme : modelEps models [] = [] := rfl
    refine ⟨by simp [hpe], ?_, ?_, ?_, by simp [hpe, hme]⟩
    · intro ep hep
      exact absurd hep (List.not_mem_nil ep)
    · rw [hpe, List.append_nil]
      exact hinv
    · intro p _ _
      exact Iff.rfl
  | cons hd tl ih =>
    intro accEps rts hnodup hfresh hinv
    rcases hmf : modelFor models hd with _ | m
    · -- entry point without a model: the pass-through router accumulates it
      have hisf : (modelFor models hd).isSome = false := by simp [hmf]
      rw [List.foldl_cons, applyModelStep_pass models name eps rt accEps rts hd hmf]
      have hnames : modelNames models eps name (hd :: tl) = modelNames models eps name tl :=
        modelNames_cons_none models eps name hd tl hisf
      rw [hnames] at hnodup hfresh
      have hinv2 : keyEntries name (upsert rts name { rt with entryPoints := accEps ++ [hd] }) =
          (if (accEps ++ [hd]).isEmpty then []
           else [(name, { rt with entryPoints := accEps ++ [hd] })]) := by
        rw [keyEntries_upsert_self]
        simp
      have hfresh2 : ∀ k ∈ modelNames models eps name tl,
          k ∉ keysOf (upsert rts name { rt with entryPoints := accEps ++ [hd] }) ∧ k ≠ name := by
        intro k hk
        rcases hfresh k hk with ⟨hk1, hk2⟩
        exact ⟨not_mem_keysOf_upsert rts name k _ hk1 hk2, hk2⟩
      rcases ih (accEps ++ [hd]) (upsert rts name { rt with entryPoints := accEps ++ [hd] })
        hnodup hfresh2 hinv2 with ⟨ha, hb, hc, hframe, hcount⟩
      have hlist : (accEps ++ [hd]) ++ passEps models tl = accEps ++ passEps models (hd :: tl) := by
        rw [passEps_cons_none models hd tl hmf]
        simp
      have hcnt1 : routersEpCount (upsert rts name { rt with entryPoints := accEps ++ [hd] }) =
          routersEpCount rts + 1 := by
        have hpart := routersEpCount_partition rts name
        rw [hinv] at hpart
        have hup := routersEpCount_upsert rts name { rt with entryPoints := accEps ++ [hd] }
        have hproj : ({ rt with entryPoints := accEps ++ [hd] } : Router).entryPoints =
            accEps ++ [hd] := rfl
        rw [hproj] at hup
        by_cases haE : accEps.isEmpty
        · have haN : accEps = [] := List.isEmpty_iff.mp haE
          rw [if_pos haE] at hpart
          have h0 : routersEpCount ([] : List (String × Router)) = 0 := rfl
          rw [h0] at hpart
          rw [hup, haN]
          simp only [List.nil_append, List.length_cons, List.length_nil]
          omega
        · rw [if_neg haE] at hpart
          have hsingle : routersEpCount [(name, { rt with entryPoints := accEps })] =
              accEps.length := by
            simp [routersEpCount]
          rw [hsingle] at hpart
          rw [hup]
          simp only [List.length_append, List.length_cons, List.length_nil]
          omega
      refine ⟨?_, ?_, ?_, ?_, ?_⟩
      · rw [ha, hlist]
      · intro ep hep m2 hm2
        rcases List.mem_cons.mp hep with he | he
        · subst he
          rw [hmf] at hm2
          exact absurd hm2 (by simp)
        · exact hb ep he m2 hm2
      · rw [hc, hlist]
      · intro p hp1 hp2
        rw [hnames] at hp2
        rw [hframe p hp1 hp2]
        exact mem_upsert_iff_of_ne rts name _ p hp1
      · rw [hcount, hcnt1, modelEps_cons_none models hd tl hmf, passEps_cons_none models hd tl hmf]
        simp only [List.length_cons]
        omega
    · -- entry point with a model: a fresh expanded copy is inserted
      have hist : (modelFor models hd).isSome = true := by simp [hmf]
      rw [List.foldl_cons, applyModelStep_model models name eps rt accEps rts hd m hmf]
      have hnames : modelNames models eps name (hd :: tl) =
          expandedName eps name hd :: modelNames models eps name tl :=
        modelNames_cons_some models eps name hd tl hist
      rw [hnames] at hnodup hfresh
      have hmnotin : expandedName eps name hd ∉ modelNames models eps name tl :=
        (List.nodup_cons.mp hnodup).1
      have hnodup2 := (List.nodup_cons.mp hnodup).2
      rcases hfresh _ (List.mem_cons_self _ _) with ⟨hmfresh, hmne⟩
      have hinv2 : keyEntries name
          (upsert rts (expandedName eps name hd) (expandedRouter rt hd m)) =
          (if accEps.isEmpty then []
           else [(name, { rt with entryPoints := accEps })]) := by
        rw [keyEntries_upsert_ne rts (expandedName eps name hd) name _ (fun he => hmne he.symm)]
        exact hinv
      have hfresh2 : ∀ k ∈ modelNames models eps name tl,
          k ∉ keysOf (upsert rts (expandedName eps name hd) (expandedRouter rt hd m)) ∧
            k ≠ name := by
        intro k hk
        rcases hfresh k (List.mem_cons_of_mem _ hk) with ⟨hk1, hk2⟩
        exact ⟨not_mem_keysOf_upsert rts (expandedName eps name hd) k _ hk1
          (fun he => hmnotin (he ▸ hk)), hk2⟩
      rcases ih accEps (upsert rts (expandedName eps name hd) (expandedRouter rt hd m))
        hnodup2 hfresh2 hinv2 with ⟨ha, hb, hc, hframe, hcount⟩
      have hpe : passEps models (hd :: tl) = passEps models tl :=
        passEps_cons_some models hd tl hist
      refine ⟨?_, ?_, ?_, ?_, ?_⟩
      · rw [ha, hpe]
      · intro ep hep m2 hm2
        rcases List.mem_cons.mp hep with he | he
        · subst he
          have hme : m2 = m := by
            rw [hmf] at hm2
            exact (Option.some.inj hm2).symm
          subst hme
          rw [hframe (expandedName eps name ep, expandedRouter rt ep m2)
            (by exact hmne) hmnotin]
          exact mem_upsert_self rts _ _
        · exact hb ep he m2 hm2
      · rw [hc, hpe]
      · intro p hp1 hp2
        rw [hnames] at hp2
        simp only [List.mem_cons, not_or] at hp2
        rw [hframe p hp1 hp2.2]
        exact mem_upsert_iff_of_ne rts _ _ p hp2.1
      · have hcnt1 : routersEpCount
            (upsert rts (expandedName eps name hd) (expandedRouter rt hd m)) =
            routersEpCount rts + 1 := by
          rw [upsert_eq_append rts _ _ hmfresh, routersEpCount_append]
          have hcp1 : (expandedRouter rt hd m).entryPoints = [hd] := rfl
          simp [routersEpCount, hcp1]
        rw [hcount, hcnt1, modelEps_cons_some models hd tl hist, hpe]
        simp only [List.length_cons]
        omega

theorem modelEps_passEps_length (models : List (String × Model)) (eps : List String) :
    (modelEps models eps).length + (passEps models eps).length = eps.length := by
  induction eps with
  | nil => rfl
  | cons hd tl ih =>
    by_cases h : (modelFor models hd).isSome = true
    · rw [modelEps_cons_some models hd tl h, passEps_cons_some models hd tl h]
      simp only [List.length_cons]
      omega
    · have hn : modelFor models hd = none := by
        cases hx : modelFor models hd with
        | none => rfl
        | some m =>
          rw [hx] at h
          simp at h
      rw [modelEps_cons_none models hd tl hn, passEps_cons_none models hd tl hn]
      simp only [List.length_cons]
      omega

theorem all_isSome_of_passEps_nil (models : List (String × Model)) (eps : List String)
    (h : passEps models eps = []) : ∀ ep ∈ eps, (modelFor models ep).isSome = true := by
  intro ep hep
  unfold passEps at h
  have hp := List.filter_eq_nil_iff.mp h ep hep
  cases hx : modelFor models ep with
  | none =>
    rw [hx] at hp
    simp at hp
  | some m => rfl

theorem mem_modelNames (models : List (String × Model)) (eps : List String)
    (name : String) (ep : String) (l : List String) (hep : ep ∈ l)
    (h : (modelFor models ep).isSome = true) :
    expandedName eps name ep ∈ modelNames models eps name l := by
  unfold modelNames modelEps
  exact List.mem_map_of_mem _ (List.mem_filter.mpr ⟨hep, h⟩)

/-- The outer router loop of `applyModel` over an arbitrary accumulator. -/
def applyModelFold (models : List (String × Model)) (l : List (String × Router))
    (rts : List (String × Router)) : List (String × Router) :=
  l.foldl
    (fun rts nmrt =>
      (nmrt.2.entryPoints.foldl
        (applyModelStep models nmrt.1 nmrt.2.entryPoints nmrt.2)
        ([], rts)).2)
    rts

theorem applyModelRouters_eq_fold (models : List (String × Model))
    (l : List (String × Router)) :
    applyModelRouters models l = applyModelFold models l [] := rfl

theorem applyModelFold_cons (models : List (String × Model)) (hd : String × Router)
    (tl : List (String × Router)) (rts : List (String × Router)) :
    applyModelFold models (hd :: tl) rts =
      applyModelFold models tl
        ((hd.2.entryPoints.foldl
          (applyModelStep models hd.1 hd.2.entryPoints hd.2) ([], rts)).2) := rfl

theorem applyModelFold_spec (models : List (String × Model)) :
    ∀ (l : List (String × Router)) (rts : List (String × Router)),
      (l.bind (producedNames models)).Nodup →
      (∀ k ∈ l.bind (producedNames models), k ∉ keysOf rts) →
      (∀ nm ∈ l, ∀ ep ∈ nm.2.entryPoints, ∀ m, modelFor models ep = some m →
        (expandedName nm.2.entryPoints nm.1 ep, expandedRouter nm.2 ep m) ∈
          applyModelFold models l rts) ∧
        (∀ nm ∈ l, (passEps models nm.2.entryPoints).isEmpty = false →
          (nm.1, { nm.2 with entryPoints := passEps models nm.2.entryPoints }) ∈
            applyModelFold models l rts) ∧
        routersEpCount (applyModelFold models l rts) =
          routersEpCount rts + (l.map (fun nm => nm.2.entryPoints.length)).sum ∧
        (∀ p : String × Router, p.1 ∉ l.bind (producedNames models) →
          (p ∈ applyModelFold models l rts ↔ p ∈ rts)) := by
  intro l
  induction l with
  | nil =>
    intro rts _ _
    refine ⟨?_, ?_, by simp [applyModelFold], ?_⟩
    · intro nm hnm
      exact absurd hnm (List.not_mem_nil nm)
    · intro nm hnm
      exact absurd hnm (List.not_mem_nil nm)
    · intro p _
      exact Iff.rfl
  | cons hd tl ih =>
    intro rts hnodup hfresh
    have hbind : (hd :: tl).bind (producedNames models) =
        producedNames models hd ++ tl.bind (producedNames models) := rfl
    rw [hbind] at hnodup hfresh
    rcases List.nodup_append.mp hnodup with ⟨hn1, hn2, hdisj⟩
    rw [applyModelFold_cons]
    by_cases hpE : (passEps models hd.2.entryPoints).isEmpty
    · -- every entry point of this router has a model
      have hpnil : passEps models hd.2.entryPoints = [] := List.isEmpty_iff.mp hpE
      have hall := all_isSome_of_passEps_nil models hd.2.entryPoints hpnil
      have hprod : producedNames models hd =
          modelNames models hd.2.entryPoints hd.1 hd.2.entryPoints := by
        unfold producedNames
        rw [if_pos hpE, List.append_nil]
      rcases applyModel_inner_allmodel models hd.1 hd.2.entryPoints hd.2
        hd.2.entryPoints [] rts hall (hprod ▸ hn1)
        (fun k hk => hfresh k (List.mem_append_left _ (hprod ▸ hk))) with
        ⟨_, hb1, hframe1, hcount1⟩
      have hfresh2 : ∀ k ∈ tl.bind (producedNames models),
          k ∉ keysOf ((hd.2.entryPoints.foldl
            (applyModelStep models hd.1 hd.2.entryPoints hd.2) ([], rts)).2) := by
        intro k hk hkk
        have hknotm : k ∉ modelNames models hd.2.entryPoints hd.1 hd.2.entryPoints := by
          intro hkm
          exact hdisj (hprod ▸ hkm) hk
        rcases (mem_keysOf_iff _ k).mp hkk with ⟨v, hv⟩
        have := (hframe1 (k, v) hknotm).mp hv
        exact hfresh k (List.mem_append_right _ hk) ((mem_keysOf_iff _ k).mpr ⟨v, this⟩)
      rcases ih ((hd.2.entryPoints.foldl
          (applyModelStep models hd.1 hd.2.entryPoints hd.2) ([], rts)).2)
        hn2 hfresh2 with ⟨hA2, hB2, hC2, hD2⟩
      refine ⟨?_, ?_, ?_, ?_⟩
      · intro nm hnm ep hep m hm
        rcases List.mem_cons.mp hnm with he | he
        · subst he
          have hkey : expandedName nm.2.entryPoints nm.1 ep ∉ tl.bind (producedNames models) := by
            intro hk
            exact hdisj (hprod ▸ mem_modelNames models nm.2.entryPoints nm.1 ep
              nm.2.entryPoints hep (by simp [hm])) hk
          rw [hD2 _ hkey]
          exact hb1 ep hep m hm
        · exact hA2 nm he ep hep m hm
      · intro nm hnm hpass
        rcases List.mem_cons.mp hnm with he | he
        · subst he
          rw [hpE] at hpass
          exact absurd hpass (by simp)
        · exact hB2 nm he hpass
      · rw [hC2, hcount1]
        simp only [List.map_cons, List.sum_cons]
        omega
      · intro p hp
        rw [hbind] at hp
        simp only [List.mem_append, not_or] at hp
        rw [hD2 p hp.2]
        exact hframe1 p (fun hc => hp.1 (hprod ▸ hc))
    · -- at least one entry point has no model: the pass-through router exists
      have hprod : producedNames models hd =
          modelNames models hd.2.entryPoints hd.1 hd.2.entryPoints ++ [hd.1] := by
        unfold producedNames
        rw [if_neg hpE]
      have hn1' := hprod ▸ hn1
      rcases List.nodup_append.mp hn1' with ⟨hmn, _, hmndisj⟩
      have hmne : ∀ k ∈ modelNames models hd.2.entryPoints hd.1 hd.2.entryPoints,
          k ≠ hd.1 := by
        intro k hk he
        exact hmndisj hk (he ▸ List.mem_cons_self _ _)
      have hnamefresh : hd.1 ∉ keysOf rts :=
        hfresh hd.1 (List.mem_append_left _ (hprod ▸ List.mem_append_right _
          (List.mem_cons_self _ _)))
      rcases applyModel_inner_general models hd.1 hd.2.entryPoints hd.2
        hd.2.entryPoints [] rts hmn
        (fun k hk => ⟨hfresh k (List.mem_append_left _
          (hprod ▸ List.mem_append_left _ hk)), hmne k hk⟩)
        (by rw [keyEntries_eq_nil_of_not_mem hd.1 rts hnamefresh]
            simp) with
        ⟨ha1, hb1, hc1, hframe1, hcount1⟩
      have hfresh2 : ∀ k ∈ tl.bind (producedNames models),
          k ∉ keysOf ((hd.2.entryPoints.foldl
            (applyModelStep models hd.1 hd.2.entryPoints hd.2) ([], rts)).2) := by
        intro k hk hkk
        have hknp : k ∉ producedNames models hd := fun hc => hdisj hc hk
        rw [hprod] at hknp
        simp only [List.mem_append, List.mem_singleton, not_or] at hknp
        rcases (mem_keysOf_iff _ k).mp hkk with ⟨v, hv⟩
        have := (hframe1 (k, v) hknp.2 hknp.1).mp hv
        exact hfresh k (List.mem_append_right _ hk) ((mem_keysOf_iff _ k).mpr ⟨v, this⟩)
      rcases ih ((hd.2.entryPoints.foldl
          (applyModelStep models hd.1 hd.2.entryPoints hd.2) ([], rts)).2)
        hn2 hfresh2 with ⟨hA2, hB2, hC2, hD2⟩
      refine ⟨?_, ?_, ?_, ?_⟩
      · intro nm hnm ep hep m hm
        rcases List.mem_cons.mp hnm with he | he
        · subst he
          have hkey : expandedName nm.2.entryPoints nm.1 ep ∉ tl.bind (producedNames models) := by
            intro hk
            refine hdisj ?_ hk
            rw [hprod]
            exact List.mem_append_left _ (mem_modelNames models nm.2.entryPoints nm.1 ep
              nm.2.entryPoints hep (by simp [hm]))
          rw [hD2 _ hkey]
          exact hb1 ep hep m hm
        · exact hA2 nm he ep hep m hm
      · intro nm hnm hpass
        rcases List.mem_cons.mp hnm with he | he
        · subst he
          have hkey : nm.1 ∉ tl.bind (producedNames models) := by
            intro hk
            refine hdisj ?_ hk
            rw [hprod]
            exact List.mem_append_right _ (List.mem_cons_self _ _)
          have hmem : (nm.1, { nm.2 with entryPoints := passEps models nm.2.entryPoints }) ∈
              keyEntries nm.1 ((nm.2.entryPoints.foldl
                (applyModelStep models nm.1 nm.2.entryPoints nm.2) ([], rts)).2) := by
            rw [hc1]
            simp only [List.nil_append]
            rw [if_neg (by rw [hpass]; simp)]
            simp
          exact (hD2 (nm.1, { nm.2 with entryPoints := passEps models nm.2.entryPoints })
            hkey).mpr (mem_of_keyEntries nm.1 _ _ hmem)
        · exact hB2 nm he hpass
      · rw [hC2, hcount1]
        have hlen := modelEps_passEps_length models hd.2.entryPoints
        simp only [List.map_cons, List.sum_cons]
        omega
      · intro p hp
        rw [hbind] at hp
        simp only [List.mem_append, not_or] at hp
        have hpn : p.1 ∉ producedNames models hd := hp.1
        rw [hprod] at hpn
        simp only [List.mem_append, List.mem_singleton, not_or] at hpn
        rw [hD2 p hp.2]
        exact hframe1 p hpn.2 hpn.1

/-- C4 (amended): provided the router names produced by the expansion are
pairwise distinct (as the spec's unique-qualified-name invariant intends),
`applyModel` yields, for every router and each of its entry points with a
model `epName@internal`, a copy restricted to that entry point whose TLS is
the model's when the router had none, whose middleware list is the model's
middlewares prepended to the router's, named `epName-originalName` when the
router listed more than one entry point and the original name otherwise;
entry points without a model stay grouped on the pass-through router under
the original name; and the total number of (router, entry point) pairs is
preserved.  Without the distinctness proviso, colliding names overwrite one
another and pairs are lost (see the counterexample). -/
theorem applyModel_entry_point_expansion (cfg : Configuration)
    (hfresh : ((httpRouters cfg).bind (producedNames (httpModels cfg))).Nodup) :
    (∀ nm ∈ httpRouters cfg, ∀ ep ∈ nm.2.entryPoints, ∀ m,
       modelFor (httpModels cfg) ep = some m →
       (expandedName nm.2.entryPoints nm.1 ep, expandedRouter nm.2 ep m) ∈
         httpRouters (applyModel cfg)) ∧
      (∀ nm ∈ httpRouters cfg,
        (passEps (httpModels cfg) nm.2.entryPoints).isEmpty = false →
        (nm.1, { nm.2 with entryPoints := passEps (httpModels cfg) nm.2.entryPoints }) ∈
          httpRouters (applyModel cfg)) ∧
      configEpCount (applyModel cfg) = configEpCount cfg := by
  cases hh : cfg.http with
  | none =>
    have h1 : httpRouters cfg = [] := by simp [httpRouters, hh]
    have h2 : applyModel cfg = cfg := by simp [applyModel, hh]
    refine ⟨?_, ?_, by rw [h2]⟩
    · intro nm hnm
      rw [h1] at hnm
      exact absurd hnm (List.not_mem_nil nm)
    · intro nm hnm
      rw [h1] at hnm
      exact absurd hnm (List.not_mem_nil nm)
  | some http =>
    by_cases hm : http.models.isEmpty
    · have hmodels : http.models = [] := List.isEmpty_iff.mp hm
      have h2 : applyModel cfg = cfg := by simp [applyModel, hh, hm]
      have hM : httpModels cfg = [] := by simp [httpModels, hh, hmodels]
      refine ⟨?_, ?_, by rw [h2]⟩
      · intro nm hnm ep hep m hmm
        rw [hM] at hmm
        exact absurd hmm (by simp [modelFor])
      · intro nm hnm hpass
        rw [h2]
        have hpe : passEps (httpModels cfg) nm.2.entryPoints = nm.2.entryPoints := by
          rw [hM]
          unfold passEps
          apply List.filter_eq_self.mpr
          intro ep _
          simp [modelFor]
        rw [hpe]
        have heta : ({ nm.2 with entryPoints := nm.2.entryPoints } : Router) = nm.2 := rfl
        rw [heta]
        exact hnm
    · have h2 : httpRouters (applyModel cfg) = applyModelRouters http.models http.routers := by
        simp [applyModel, hh, hm, httpRouters]
      have hM : httpModels cfg = http.models := by simp [httpModels, hh]
      have hR : httpRouters cfg = http.routers := by simp [httpRouters, hh]
      rw [hM, hR] at hfresh
      rcases applyModelFold_spec http.models http.routers []
        hfresh (by intro k _ hc; simp [keysOf] at hc) with ⟨hA, hB, hC, _⟩
      refine ⟨?_, ?_, ?_⟩
      · intro nm hnm ep hep m hmm
        rw [hM] at hmm
        rw [hR] at hnm
        rw [h2, applyModelRouters_eq_fold]
        exact hA nm hnm ep hep m hmm
      · intro nm hnm hpass
        rw [hM] at hpass ⊢
        rw [hR] at hnm
        rw [h2, applyModelRouters_eq_fold]
        exact hB nm hnm hpass
      · unfold configEpCount
        rw [h2, applyModelRouters_eq_fold, hC, hR]
        simp [routersEpCount]

/-- Witness configuration for C4: one router on two entry points, one of
which has a model. -/
def c4WitnessConfig : Configuration :=
  { http := some
      { models := [("web@internal", { middlewares := ["m@internal"] })]
        routers := [("r@p", { entryPoints := ["web", "other"], service := "s@p" })] } }

/-- Witness for the amended C4 theorem at a concrete configuration: the
model entry point yields the expanded copy, the other entry point stays on
the pass-through router, and the pair count is preserved. -/
theorem applyModel_entry_point_expansion_witness :
    (expandedName ["web", "other"] "r@p" "web",
        expandedRouter { entryPoints := ["web", "other"], service := "s@p" } "web"
          { middlewares := ["m@internal"] }) ∈ httpRouters (applyModel c4WitnessConfig) ∧
      ("r@p", ({ entryPoints := ["other"], service := "s@p" } : Router)) ∈
        httpRouters (applyModel c4WitnessConfig) ∧
      configEpCount (applyModel c4WitnessConfig) = configEpCount c4WitnessConfig := by
  have h := applyModel_entry_point_expansion c4WitnessConfig (by decide)
  refine ⟨?_, ?_, h.2.2⟩
  · exact h.1 ("r@p", { entryPoints := ["web", "other"], service := "s@p" }) (by decide)
      "web" (by decide) { middlewares := ["m@internal"] } (by decide)
  · have hp := h.2.1 ("r@p", { entryPoints := ["web", "other"], service := "s@p" })
      (by decide) (by decide)
    exact hp

/-- The configuration refuting the original C4 claim: router `foo` spans
entry points `web` (which has a model) and `x`, while another router is
already named `web-foo`; the expanded copy of `foo` for `web` collides with
it. -/
def c4CounterConfig : Configuration :=
  { http := some
      { models := [("web@internal", {})]
        routers := [("foo", { entryPoints := ["web", "x"] }),
                    ("web-foo", { entryPoints := ["other"] })] } }

/-- C4 counterexample: on the collision configuration the union of
(router, entry point) pairs is not preserved — three input pairs become two,
because the pass-through router `web-foo` overwrites the expanded copy
`web-foo` of router `foo`. -/
theorem applyModel_pair_loss :
    configEpCount c4CounterConfig = 3 ∧
      configEpCount (applyModel c4CounterConfig) = 2 := by
  exact ⟨by decide, by decide⟩

/-! ## Claim C5: the GRPC match rule builder -/

inductive GRPCMethodMatchType
  | exact
  | regularExpression
deriving DecidableEq, Repr

structure GRPCMethodMatch where
  type : Option GRPCMethodMatchType := none
  service : Option String := none
  method : Option String := none
deriving DecidableEq, Repr

inductive HeaderMatchType
  | exact
  | regularExpression
deriving DecidableEq, Repr

structure GRPCHeaderMatch where
  type : Option HeaderMatchType := none
  name : String := ""
  value : String := ""
deriving DecidableEq, Repr

structure GRPCRouteMatch where
  method : Option GRPCMethodMatch := none
  headers : List GRPCHeaderMatch := []
deriving DecidableEq, Repr

/-- Embedding of `buildGRPCMethodRule`: `nil` matches everything; only the
`Exact` type is supported; missing service or method parts render as
`[^/]+`. -/
def buildGRPCMethodRule (method : Option GRPCMethodMatch) : Except String String :=
  match method with
  | none => .ok "PathPrefix(`/`)"
  | some m =>
    let typ := m.type.getD .exact
    if typ != .exact then
      .error "unsupported GRPC method match type"
    else
      let sExpr := if m.service.getD "" != "" then m.service.getD "" else "[^/]+"
      let mExpr := if m.method.getD "" != "" then m.method.getD "" else "[^/]+"
      .ok ("PathRegexp(`/" ++ sExpr ++ "/" ++ mExpr ++ "`)")

/-- Embedding of `buildGRPCHeaderRules`. -/
def buildGRPCHeaderRules (headers : List GRPCHeaderMatch) : List String :=
  headers.map (fun header =>
    match header.type.getD .exact with
    | .exact => "Header(`" ++ header.name ++ "`,`" ++ header.value ++ "`)"
    | .regularExpression => "HeaderRegexp(`" ++ header.name ++ "`,`" ++ header.value ++ "`)")

/-- Modelled from the spec: `buildHostRule` lives in the HTTPRoute translator,
which is not under `src/`; per the spec and the test oracle, no hostnames
yield no rule (priority 0) and a single hostname `h` yields Host(`h`) with
priority `len(h)` (longer literal matches outrank shorter).  Multiple
hostnames are ORed with the longest length as priority. -/
def buildHostRule : List String → String × Nat
  | [] => ("", 0)
  | [h] => ("Host(`" ++ h ++ "`)", h.length)
  | hs =>
    ("(" ++ String.intercalate " || " (hs.map (fun h => "Host(`" ++ h ++ "`)")) ++ ")",
      hs.foldl (fun acc h => max acc h.length) 0)

/-- Embedding of `buildGRPCMatchRule` as it stands under `src/` (rule string
only; the error from `buildGRPCMethodRule` is discarded — see the
`FIXME error handling` comment — leaving an empty method fragment). -/
def buildGRPCMatchRule (hostnames : List String) (m : GRPCRouteMatch) : String :=
  let methodRule :=
    match buildGRPCMethodRule m.method with
    | .ok r => r
    | .error _ => ""
  let matchRules := [methodRule] ++ buildGRPCHeaderRules m.headers
  let matchRulesStr := String.intercalate " && " matchRules
  let hostRule := (buildHostRule hostnames).1
  if hostRule == "" then matchRulesStr
  else hostRule ++ " && " ++ matchRulesStr

/-- Modelled from the spec: the priority returned alongside the rule
(`Test_buildGRPCMatchRule` expects a second return value; the rule-only
draft is what is under `src/`): the host priority plus the length of the
joined non-host match rules, matching the spec's numeric ladder. -/
def buildGRPCMatchRuleWithPriority (hostnames : List String) (m : GRPCRouteMatch) :
    String × Nat :=
  let methodRule :=
    match buildGRPCMethodRule m.method with
    | .ok r => r
    | .error _ => ""
  let matchRules := [methodRule] ++ buildGRPCHeaderRules m.headers
  let matchRulesStr := String.intercalate " && " matchRules
  let host := buildHostRule hostnames
  if host.1 == "" then (matchRulesStr, matchRulesStr.length)
  else (host.1 ++ " && " ++ matchRulesStr, host.2 + matchRulesStr.length)

/-- Whether an `Except` is an error. -/
def isErrResult {ε α : Type} : Except ε α → Bool
  | .error _ => true
  | .ok _ => false

/-- C5: the GRPC match-rule scenarios of the claim: a service-only match with
no hostnames gives PathRegexp(`/foobar/[^/]+`) at priority 27; hostnames
[foo.com] with service and method foobar give
Host(`foo.com`) && PathRegexp(`/foobar/foobar`) at priority 35; missing
service or method parts render as `[^/]+`; only the Exact method type is
supported (any other type is an error); and the priority-carrying builder
returns exactly the rule of the builder under `src/`. -/
theorem buildGRPCMatchRule_scenarios :
    buildGRPCMatchRuleWithPriority []
        { method := some { service := some "foobar" } } =
      ("PathRegexp(`/foobar/[^/]+`)", 27) ∧
      buildGRPCMatchRuleWithPriority ["foo.com"]
          { method := some { service := some "foobar", method := some "foobar" } } =
        ("Host(`foo.com`) && PathRegexp(`/foobar/foobar`)", 35) ∧
      buildGRPCMethodRule (some { method := some "foobar" }) =
        .ok "PathRegexp(`/[^/]+/foobar`)" ∧
      buildGRPCMethodRule (some { service := some "foobar" }) =
        .ok "PathRegexp(`/foobar/[^/]+`)" ∧
      (∀ svc mth : Option String,
        isErrResult (buildGRPCMethodRule
          (some { type := some .regularExpression, service := svc, method := mth })) = true) ∧
      buildGRPCMethodRule (some { type := some .exact, service := some "foobar" }) =
        .ok "PathRegexp(`/foobar/[^/]+`)" ∧
      (∀ (hostnames : List String) (m : GRPCRouteMatch),
        (buildGRPCMatchRuleWithPriority hostnames m).1 = buildGRPCMatchRule hostnames m) := by
  refine ⟨by decide, by decide, rfl, rfl, ?_, rfl, ?_⟩
  · intro svc mth
    rfl
  · intro hostnames m
    unfold buildGRPCMatchRuleWithPriority buildGRPCMatchRule
    by_cases h : ((buildHostRule hostnames).1 == "") = true
    · simp [h]
    · simp [h]

/-! ## Claim C6: route status updates -/

structure Condition where
  type : String := ""
  status : String := ""
  reason : String := ""
  message : String := ""
  observedGeneration : Int := 0
  lastTransitionTime : Nat := 0
deriving DecidableEq, Repr

/-- A route parent status; the parent reference is modelled as an opaque
identifier compared by equality (the source compares it with
`reflect.DeepEqual`). -/
structure RouteParentStatus where
  parentRef : String := ""
  controllerName : String := ""
  conditions : List Condition := []
deriving DecidableEq, Repr

/-- Embedding of the per-element comparison of `conditionsEqual`: Type,
Reason, Status, Message and ObservedGeneration (LastTransitionTime is
ignored). -/
def conditionEq (cA cB : Condition) : Bool :=
  cA.type == cB.type && cA.reason == cB.reason && cA.status == cB.status &&
    cA.message == cB.message && cA.observedGeneration == cB.observedGeneration

/-- Embedding of `conditionsEqual` (`slices.EqualFunc`). -/
def conditionsEqual : List Condition → List Condition → Bool
  | [], [] => true
  | a :: as, b :: bs => conditionEq a b && conditionsEqual as bs
  | _, _ => false

/-- Embedding of `routeParentStatusEqual`. -/
def routeParentStatusEqual (sA sB : RouteParentStatus) : Bool :=
  sA.parentRef == sB.parentRef && sA.controllerName == sB.controllerName &&
    conditionsEqual sA.conditions sB.conditions

/-- Embedding of `routeParentStatusesEqual`: equal lengths and mutual
containment under `routeParentStatusEqual`. -/
def routeParentStatusesEqual (a b : List RouteParentStatus) : Bool :=
  a.length == b.length &&
    a.all (fun sA => b.any (fun sB => routeParentStatusEqual sB sA)) &&
    b.all (fun sB => a.any (fun sA => routeParentStatusEqual sA sB))

/-- Embedding of the merge-and-decide core of `UpdateHTTPRouteStatus`: copy
the new parent statuses, append the current entries of other controllers,
and skip the update when nothing changed; `none` means no UpdateStatus call
is issued, `some` carries the written parents. -/
def updateHTTPRouteStatusParents (controllerName : String)
    (current newParents : List RouteParentStatus) : Option (List RouteParentStatus) :=
  let parentStatuses := newParents ++
    current.filter (fun p => p.controllerName != controllerName)
  if routeParentStatusesEqual current parentStatuses then none
  else some parentStatuses

/-- Embedding of the merge-and-decide core of `UpdateTCPRouteStatus`;
identical to the HTTPRoute logic. -/
def updateTCPRouteStatusParents (controllerName : String)
    (current newParents : List RouteParentStatus) : Option (List RouteParentStatus) :=
  let parentStatuses := newParents ++
    current.filter (fun p => p.controllerName != controllerName)
  if routeParentStatusesEqual current parentStatuses then none
  else some parentStatuses

/-- Embedding of the merge-and-decide core of `UpdateTLSRouteStatus`;
identical to the HTTPRoute logic. -/
def updateTLSRouteStatusParents (controllerName : String)
    (current newParents : List RouteParentStatus) : Option (List RouteParentStatus) :=
  let parentStatuses := newParents ++
    current.filter (fun p => p.controllerName != controllerName)
  if routeParentStatusesEqual current parentStatuses then none
  else some parentStatuses

/-- Embedding of the merge core of `UpdateGRPCRouteStatus`: the current
entries of other controllers come first, the new ones are appended, and —
unlike the other three route kinds — the update is issued unconditionally
(the function has no `routeParentStatusesEqual` short-circuit). -/
def updateGRPCRouteStatusParents (controllerName : String)
    (current newParents : List RouteParentStatus) : Option (List RouteParentStatus) :=
  let parentStatuses :=
    current.filter (fun p => p.controllerName != controllerName) ++ newParents
  some parentStatuses

/-- C6 (amended): for every route status update, parent status entries of
other controllers are carried over verbatim into the written status;
HTTPRoute, TCPRoute and TLSRoute updates are skipped when the merged status
equals the stored one; the GRPCRoute update is issued unconditionally (its
updater lacks the no-change short-circuit); and conditions are compared by
Type, Reason, Status, Message and ObservedGeneration, ignoring
LastTransitionTime. -/
theorem route_status_update_semantics :
    (∀ (cn : String) (current newParents written : List RouteParentStatus),
        updateHTTPRouteStatusParents cn current newParents = some written →
        ∀ p ∈ current, p.controllerName ≠ cn → p ∈ written) ∧
      (∀ (cn : String) (current newParents written : List RouteParentStatus),
        updateTCPRouteStatusParents cn current newParents = some written →
        ∀ p ∈ current, p.controllerName ≠ cn → p ∈ written) ∧
      (∀ (cn : String) (current newParents written : List RouteParentStatus),
        updateTLSRouteStatusParents cn current newParents = some written →
        ∀ p ∈ current, p.controllerName ≠ cn → p ∈ written) ∧
      (∀ (cn : String) (current newParents written : List RouteParentStatus),
        updateGRPCRouteStatusParents cn current newParents = some written →
        ∀ p ∈ current, p.controllerName ≠ cn → p ∈ written) ∧
      (∀ (cn : String) (current newParents : List RouteParentStatus),
        routeParentStatusesEqual current
          (newParents ++ current.filter (fun p => p.controllerName != cn)) = true →
        updateHTTPRouteStatusParents cn current newParents = none) ∧
      (∀ (cn : String) (current newParents : List RouteParentStatus),
        routeParentStatusesEqual current
          (newParents ++ current.filter (fun p => p.controllerName != cn)) = true →
        updateTCPRouteStatusParents cn current newParents = none) ∧
      (∀ (cn : String) (current newParents : List RouteParentStatus),
        routeParentStatusesEqual current
          (newParents ++ current.filter (fun p => p.controllerName != cn)) = true →
        updateTLSRouteStatusParents cn current newParents = none) ∧
      (∀ (cn : String) (current newParents : List RouteParentStatus),
        updateGRPCRouteStatusParents cn current newParents =
          some (current.filter (fun p => p.controllerName != cn) ++ newParents)) ∧
      (∀ (c : Condition) (t : Nat),
        conditionEq c { c with lastTransitionTime := t } = true) := by
  have hpres : ∀ (cn : String) (current newParents written : List RouteParentStatus),
      (if routeParentStatusesEqual current
          (newParents ++ current.filter (fun p => p.controllerName != cn)) then none
        else some (newParents ++ current.filter (fun p => p.controllerName != cn))) =
          some written →
      ∀ p ∈ current, p.controllerName ≠ cn → p ∈ written := by
    intro cn current newParents written hup p hp hpc
    split at hup
    · exact absurd hup (by simp)
    · have hw : written = newParents ++
          current.filter (fun p => p.controllerName != cn) := (Option.some.inj hup).symm
      rw [hw]
      apply List.mem_append_right
      apply List.mem_filter.mpr
      exact ⟨hp, by simp [bne, hpc]⟩
  refine ⟨hpres, hpres, hpres, ?_, ?_, ?_, ?_, ?_, ?_⟩
  · intro cn current newParents written hup p hp hpc
    have hw : written = current.filter (fun p => p.controllerName != cn) ++ newParents :=
      (Option.some.inj hup).symm
    rw [hw]
    apply List.mem_append_left
    apply List.mem_filter.mpr
    exact ⟨hp, by simp [bne, hpc]⟩
  · intro cn current newParents h
    simp [updateHTTPRouteStatusParents, h]
  · intro cn current newParents h
    simp [updateTCPRouteStatusParents, h]
  · intro cn current newParents h
    simp [updateTLSRouteStatusParents, h]
  · intro cn current newParents
    rfl
  · intro c t
    simp [conditionEq]

/-- The stored parent status used to refute the original C6 claim. -/
def c6Current : List RouteParentStatus :=
  [{ parentRef := "gw"
     controllerName := "traefik.io/gateway-controller"
     conditions := [{ type := "Accepted", status := "True", reason := "Accepted" }] }]

/-- C6 counterexample: when the controller re-submits an identical GRPCRoute
status, the merged status equals the stored one, yet the GRPCRoute updater
still issues the UpdateStatus call (it returns a written status instead of
skipping), contradicting the claim for GRPCRoute. -/
theorem updateGRPCRouteStatus_no_skip :
    routeParentStatusesEqual c6Current
        (c6Current.filter
          (fun p => p.controllerName != "traefik.io/gateway-controller") ++ c6Current) =
      true ∧
      updateGRPCRouteStatusParents "traefik.io/gateway-controller" c6Current c6Current =
        some c6Current ∧
      updateGRPCRouteStatusParents "traefik.io/gateway-controller" c6Current c6Current ≠
        none := by
  refine ⟨by decide, by decide, by decide⟩

/-- Witness for the amended C6 theorem: a foreign controller's entry
survives an HTTPRoute status write, and an empty no-change update is
skipped, both obtained through the theorem at concrete inputs. -/
theorem route_status_update_semantics_witness :
    ({ parentRef := "gw", controllerName := "other" } : RouteParentStatus) ∈
        [({ parentRef := "gw2", controllerName := "traefik.io/gateway-controller" }
            : RouteParentStatus),
          { parentRef := "gw", controllerName := "other" }] ∧
      updateHTTPRouteStatusParents "traefik.io/gateway-controller" [] [] = none := by
  constructor
  · exact route_status_update_semantics.1 "traefik.io/gateway-controller"
      [{ parentRef := "gw", controllerName := "other" }]
      [{ parentRef := "gw2", controllerName := "traefik.io/gateway-controller" }]
      [{ parentRef := "gw2", controllerName := "traefik.io/gateway-controller" },
        { parentRef := "gw", controllerName := "other" }]
      (by decide)
      { parentRef := "gw", controllerName := "other" }
      (by decide) (by decide)
  · exact route_status_update_semantics.2.2.2.2.1 "traefik.io/gateway-controller" [] []
      (by decide)

/-! ## Claims C7 and C8: the brotli response writer

The underlying `http.ResponseWriter` is modelled by its header map, the raw
bytes written to it, and the status code written; the brotli encoder
(`andybalholm/brotli`, an external library) is modelled by the uncompressed
byte stream fed to it (`bwData`) plus a closed flag: brotli-decoding the
emitted compressed body recovers exactly that stream once the encoder is
closed (the codec round-trip is the library's contract), and a successful
encoder write consumes its whole input (the `io.Writer` contract; the
short-write recovery branches are therefore not taken).
`mime.ParseMediaType` (standard library) is a parameter `pmt`, returning
`none` on a parse error.  Bytes are `Nat`. -/

/-- `Vary`. -/
def vary : String := "Vary"

/-- `Accept-Encoding`. -/
def acceptEncoding : String := "Accept-Encoding"

/-- `Content-Encoding`. -/
def contentEncoding : String := "Content-Encoding"

/-- `Content-Length`. -/
def contentLength : String := "Content-Length"

/-- `Content-Type`. -/
def contentType : String := "Content-Type"

/-- Go `http.Header`. -/
structure HttpHeader where
  entries : List (String × List String) := []
deriving DecidableEq, Repr

/-- `Header.Get`: the first value, or the empty string. -/
def HttpHeader.get (h : HttpHeader) (k : String) : String :=
  match h.entries.lookup k with
  | some (v :: _) => v
  | _ => ""

/-- All values under a key. -/
def HttpHeader.values (h : HttpHeader) (k : String) : List String :=
  (h.entries.lookup k).getD []

/-- `Header.Set`. -/
def HttpHeader.set (h : HttpHeader) (k v : String) : HttpHeader :=
  ⟨upsert h.entries k [v]⟩

/-- `Header.Add`. -/
def HttpHeader.add (h : HttpHeader) (k v : String) : HttpHeader :=
  match h.entries.lookup k with
  | some vs => ⟨upsert h.entries k (vs ++ [v])⟩
  | none => ⟨h.entries ++ [(k, [v])]⟩

/-- `Header.Del`. -/
def HttpHeader.del (h : HttpHeader) (k : String) : HttpHeader :=
  ⟨eraseKey h.entries k⟩

/-- Embedding of `parsedContentType` (contenttype.go). -/
structure ParsedContentType where
  mediaType : String := ""
  params : List (String × String) := []
deriving DecidableEq, Repr

/-- Embedding of `parsedContentType.equals`. -/
def ParsedContentType.equals (p : ParsedContentType) (mediaType : String)
    (params : List (String × String)) : Bool :=
  if p.mediaType != mediaType then false
  else if p.params.length == 0 then true
  else if p.params.length != params.length then false
  else p.params.all (fun kv =>
    match params.lookup kv.1 with
    | some w => kv.2 == w
    | none => false)

/-- Embedding of `brotliResponseWriter` together with its observable
effects on the underlying response writer and the encoder. -/
structure BrotliResponseWriter where
  rwHeader : HttpHeader
  rwBody : List Nat
  rwStatusWritten : Option Nat
  bwData : List Nat
  bwClosed : Bool
  minSize : Nat
  excludedContentTypes : List ParsedContentType
  buf : List Nat
  statusCode : Nat
  skipCompression : Bool
  compressionStarted : Bool
  headersSent : Bool
  seenData : Bool
deriving DecidableEq, Repr

/-- The writer as constructed by `NewMiddleware` (status code defaults to
200). -/
def newBrotliResponseWriter (minSize : Nat) (excluded : List ParsedContentType)
    (h : HttpHeader) : BrotliResponseWriter :=
  { rwHeader := h, rwBody := [], rwStatusWritten := none, bwData := [], bwClosed := false
    minSize := minSize, excludedContentTypes := excluded, buf := [], statusCode := 200
    skipCompression := false, compressionStarted := false, headersSent := false
    seenData := false }

/-- The content-type block of `Write`: parse the Content-Type header (when
present) and test it against the excluded media types. -/
def contentTypeExcluded (pmt : String → Option (String × List (String × String)))
    (excluded : List ParsedContentType) (hdr : HttpHeader) : Except String Bool :=
  let ct := hdr.get contentType
  if ct == "" then .ok false
  else
    match pmt ct with
    | none => .error "unable to parse media type"
    | some mp => .ok (excluded.any (fun e => e.equals mp.1 mp.2))

/-- The `seenData` update at the top of `Write`. -/
def markSeen (b : BrotliResponseWriter) (p : List Nat) : BrotliResponseWriter :=
  if !b.seenData && decide (0 < p.length) then { b with seenData := true } else b

/-- Embedding of `brotliResponseWriter.Write`. -/
def BrotliResponseWriter.write (pmt : String → Option (String × List (String × String)))
    (b : BrotliResponseWriter) (p : List Nat) :
    Except String (BrotliResponseWriter × Nat) :=
  let b := markSeen b p
  if b.skipCompression then
    .ok ({ b with rwBody := b.rwBody ++ p }, p.length)
  else if b.compressionStarted then
    .ok ({ b with bwData := b.bwData ++ p }, p.length)
  else if b.rwHeader.get contentEncoding != "" then
    .ok ({ b with skipCompression := true, rwBody := b.rwBody ++ p }, p.length)
  else
    match contentTypeExcluded pmt b.excludedContentTypes b.rwHeader with
    | .error e => .error e
    | .ok true =>
      .ok ({ b with skipCompression := true, rwBody := b.rwBody ++ p }, p.length)
    | .ok false =>
      if b.buf.length + p.length < b.minSize then
        .ok ({ b with buf := b.buf ++ p }, p.length)
      else
        .ok ({ b with
          rwHeader := ((b.rwHeader.del contentLength).add vary acceptEncoding).set
            contentEncoding "br"
          rwStatusWritten := some b.statusCode
          headersSent := true
          compressionStarted := true
          bwData := b.bwData ++ b.buf ++ p
          buf := [] }, p.length)

/-- Embedding of `brotliResponseWriter.Close`. -/
def BrotliResponseWriter.close (b : BrotliResponseWriter) : BrotliResponseWriter :=
  let b := if !b.headersSent then
      { b with rwStatusWritten := some b.statusCode, headersSent := true }
    else b
  if b.buf.length == 0 then
    if !b.compressionStarted then b
    else { b with bwClosed := true }
  else if b.compressionStarted then
    { b with bwData := b.bwData ++ b.buf, bwClosed := true }
  else
    { b with rwBody := b.rwBody ++ b.buf }

/-- A handler body delivered as a sequence of `Write` calls. -/
def writeChunks (pmt : String → Option (String × List (String × String))) :
    BrotliResponseWriter → List (List Nat) → Except String BrotliResponseWriter
  | b, [] => .ok b
  | b, c :: cs =>
    match b.write pmt c with
    | .error e => .error e
    | .ok bn => writeChunks pmt bn.1 cs

/-- Writer state while buffering below the threshold. -/
def bufferState (ms : Nat) (excl : List ParsedContentType) (h0 : HttpHeader)
    (acc : List Nat) (seen : Bool) : BrotliResponseWriter :=
  { rwHeader := h0, rwBody := [], rwStatusWritten := none, bwData := [], bwClosed := false
    minSize := ms, excludedContentTypes := excl, buf := acc, statusCode := 200
    skipCompression := false, compressionStarted := false, headersSent := false
    seenData := seen }

/-- The response headers once compression has started. -/
def compressedHeader (h0 : HttpHeader) : HttpHeader :=
  ((h0.del contentLength).add vary acceptEncoding).set contentEncoding "br"

/-- Writer state once compression has started. -/
def compState (ms : Nat) (excl : List ParsedContentType) (h0 : HttpHeader)
    (data : List Nat) (seen : Bool) : BrotliResponseWriter :=
  { rwHeader := compressedHeader h0, rwBody := [], rwStatusWritten := some 200
    bwData := data, bwClosed := false, minSize := ms, excludedContentTypes := excl
    buf := [], statusCode := 200, skipCompression := false, compressionStarted := true
    headersSent := true, seenData := seen }

/-- Writer state in pass-through (skip) mode. -/
def skipState (ms : Nat) (excl : List ParsedContentType) (h0 : HttpHeader)
    (rb : List Nat) (seen : Bool) : BrotliResponseWriter :=
  { rwHeader := h0, rwBody := rb, rwStatusWritten := none, bwData := [], bwClosed := false
    minSize := ms, excludedContentTypes := excl, buf := [], statusCode := 200
    skipCompression := true, compressionStarted := false, headersSent := false
    seenData := seen }

theorem newBrotliResponseWriter_eq_bufferState (ms : Nat)
    (excl : List ParsedContentType) (h0 : HttpHeader) :
    newBrotliResponseWriter ms excl h0 = bufferState ms excl h0 [] false := rfl

theorem markSeen_bufferState (ms : Nat) (excl : List ParsedContentType)
    (h0 : HttpHeader) (acc : List Nat) (seen : Bool) (p : List Nat) :
    markSeen (bufferState ms excl h0 acc seen) p =
      bufferState ms excl h0 acc (seen || decide (0 < p.length)) := by
  cases seen <;> by_cases hp : 0 < p.length <;> simp [markSeen, bufferState, hp]

theorem markSeen_compState (ms : Nat) (excl : List ParsedContentType)
    (h0 : HttpHeader) (data : List Nat) (seen : Bool) (p : List Nat) :
    markSeen (compState ms excl h0 data seen) p =
      compState ms excl h0 data (seen || decide (0 < p.length)) := by
  cases seen <;> by_cases hp : 0 < p.length <;> simp [markSeen, compState, hp]

theorem markSeen_skipState (ms : Nat) (excl : List ParsedContentType)
    (h0 : HttpHeader) (rb : List Nat) (seen : Bool) (p : List Nat) :
    markSeen (skipState ms excl h0 rb seen) p =
      skipState ms excl h0 rb (seen || decide (0 < p.length)) := by
  cases seen <;> by_cases hp : 0 < p.length <;> simp [markSeen, skipState, hp]

theorem write_bufferState (pmt : String → Option (String × List (String × String)))
    (ms : Nat) (excl : List ParsedContentType) (h0 : HttpHeader)
    (acc : List Nat) (seen : Bool) (p : List Nat)
    (hce : h0.get contentEncoding = "")
    (hct : contentTypeExcluded pmt excl h0 = .ok false) :
    (bufferState ms excl h0 acc seen).write pmt p =
      (if acc.length + p.length < ms then
        .ok (bufferState ms excl h0 (acc ++ p) (seen || decide (0 < p.length)), p.length)
      else
        .ok (compState ms excl h0 (acc ++ p) (seen || decide (0 < p.length)), p.length)) := by
  unfold BrotliResponseWriter.write
  rw [markSeen_bufferState]
  simp only [bufferState, compState, compressedHeader, hce, hct, bne_self_eq_false,
    Bool.false_eq_true, if_false]
  by_cases hth : acc.length + p.length < ms
  · rw [if_pos hth, if_pos hth]
  · rw [if_neg hth, if_neg hth]
    rw [List.nil_append]

theorem write_compState (pmt : String → Option (String × List (String × String)))
    (ms : Nat) (excl : List ParsedContentType) (h0 : HttpHeader)
    (data : List Nat) (seen : Bool) (p : List Nat) :
    (compState ms excl h0 data seen).write pmt p =
      .ok (compState ms excl h0 (data ++ p) (seen || decide (0 < p.length)), p.length) := by
  unfold BrotliResponseWriter.write
  rw [markSeen_compState]
  simp only [compState, Bool.false_eq_true, if_false, if_true]

theorem write_skipState (pmt : String → Option (String × List (String × String)))
    (ms : Nat) (excl : List ParsedContentType) (h0 : HttpHeader)
    (rb : List Nat) (seen : Bool) (p : List Nat) :
    (skipState ms excl h0 rb seen).write pmt p =
      .ok (skipState ms excl h0 (rb ++ p) (seen || decide (0 < p.length)), p.length) := by
  unfold BrotliResponseWriter.write
  rw [markSeen_skipState]
  simp only [skipState, if_true]

theorem write_bufferState_excluded (pmt : String → Option (String × List (String × String)))
    (ms : Nat) (excl : List ParsedContentType) (h0 : HttpHeader)
    (seen : Bool) (p : List Nat)
    (hce : h0.get contentEncoding = "")
    (hct : contentTypeExcluded pmt excl h0 = .ok true) :
    (bufferState ms excl h0 [] seen).write pmt p =
      .ok (skipState ms excl h0 p (seen || decide (0 < p.length)), p.length) := by
  unfold BrotliResponseWriter.write
  rw [markSeen_bufferState]
  simp only [bufferState, skipState, hce, hct, bne_self_eq_false, Bool.false_eq_true,
    if_false, List.nil_append]

theorem lookup_upsert_ne {α : Type} (m : List (String × α)) (k k2 : String) (v : α)
    (h : k2 ≠ k) : (upsert m k v).lookup k2 = m.lookup k2 := by
  unfold upsert
  induction m with
  | nil =>
    have hb : (k2 == k) = false := by
      simp only [beq_eq_false_iff_ne, ne_eq]
      exact h
    simp [List.lookup, hb]
  | cons hd tl ih =>
    by_cases he : hd.1 = k
    · have hb : (hd.1 != k) = false := by simp [bne, he]
      have hb2 : (k2 == hd.1) = false := by
        simp only [beq_eq_false_iff_ne, ne_eq]
        intro hx
        exact h (hx.trans he)
      simp only [List.filter, hb, List.lookup, hb2]
      exact ih
    · have hb : (hd.1 != k) = true := by simp [bne, he]
      simp only [List.filter, hb, List.cons_append, List.lookup]
      cases hx : (k2 == hd.1) with
      | true => rfl
      | false => exact ih

theorem lookup_eraseKey_ne {α : Type} (m : List (String × α)) (k k2 : String)
    (h : k2 ≠ k) : (eraseKey m k).lookup k2 = m.lookup k2 := by
  unfold eraseKey
  induction m with
  | nil => rfl
  | cons hd tl ih =>
    by_cases he : hd.1 = k
    · have hb : (hd.1 != k) = false := by simp [bne, he]
      have hb2 : (k2 == hd.1) = false := by
        simp only [beq_eq_false_iff_ne, ne_eq]
        intro hx
        exact h (hx.trans he)
      simp only [List.filter, hb, List.lookup, hb2]
      exact ih
    · have hb : (hd.1 != k) = true := by simp [bne, he]
      simp only [List.filter, hb, List.lookup]
      cases hx : (k2 == hd.1) with
      | true => rfl
      | false => exact ih

theorem lookup_append_match {α : Type} (l1 l2 : List (String × α)) (k : String) :
    (l1 ++ l2).lookup k =
      (match l1.lookup k with
       | some v => some v
       | none => l2.lookup k) := by
  induction l1 with
  | nil => simp [List.lookup]
  | cons hd tl ih =>
    simp only [List.cons_append, List.lookup]
    cases hx : (k == hd.1) with
    | true => rfl
    | false => exact ih

theorem hdrGet_set_self (h : HttpHeader) (k v : String) : (h.set k v).get k = v := by
  unfold HttpHeader.get HttpHeader.set
  rw [lookup_upsert]

theorem hdrValues_set_ne (h : HttpHeader) (k k2 v : String) (hne : k2 ≠ k) :
    (h.set k v).values k2 = h.values k2 := by
  unfold HttpHeader.values HttpHeader.set
  rw [lookup_upsert_ne _ _ _ _ hne]

theorem hdrValues_del_self (h : HttpHeader) (k : String) : (h.del k).values k = [] := by
  unfold HttpHeader.values HttpHeader.del
  rw [lookup_eraseKey]
  rfl

theorem hdrValues_del_ne (h : HttpHeader) (k k2 : String) (hne : k2 ≠ k) :
    (h.del k).values k2 = h.values k2 := by
  unfold HttpHeader.values HttpHeader.del
  rw [lookup_eraseKey_ne _ _ _ hne]

theorem hdrValues_add_ne (h : HttpHeader) (k k2 v : String) (hne : k2 ≠ k) :
    (h.add k v).values k2 = h.values k2 := by
  unfold HttpHeader.values HttpHeader.add
  cases hx : h.entries.lookup k with
  | some vs =>
    simp only []
    rw [lookup_upsert_ne _ _ _ _ hne]
  | none =>
    simp only []
    rw [lookup_append_match]
    cases hy : h.entries.lookup k2 with
    | some w => rfl
    | none =>
      simp only [List.lookup]
      have hb : (k2 == k) = false := by
        simp only [beq_eq_false_iff_ne, ne_eq]
        exact hne
      rw [hb]

theorem mem_hdrValues_add_self (h : HttpHeader) (k v : String) :
    v ∈ (h.add k v).values k := by
  unfold HttpHeader.values HttpHeader.add
  cases hx : h.entries.lookup k with
  | some vs =>
    simp only []
    rw [lookup_upsert]
    simp
  | none =>
    simp only []
    rw [lookup_append_match, hx]
    simp [List.lookup]

theorem compressedHeader_get_contentEncoding (h0 : HttpHeader) :
    (compressedHeader h0).get contentEncoding = "br" :=
  hdrGet_set_self _ _ _

theorem compressedHeader_vary (h0 : HttpHeader) :
    "Accept-Encoding" ∈ (compressedHeader h0).values vary := by
  unfold compressedHeader
  rw [hdrValues_set_ne _ _ _ _ (by decide)]
  exact mem_hdrValues_add_self _ _ _

theorem compressedHeader_contentLength (h0 : HttpHeader) :
    (compressedHeader h0).values contentLength = [] := by
  unfold compressedHeader
  rw [hdrValues_set_ne _ _ _ _ (by decide), hdrValues_add_ne _ _ _ _ (by decide)]
  exact hdrValues_del_self _ _

theorem writeChunks_compState (pmt : String → Option (String × List (String × String)))
    (ms : Nat) (excl : List ParsedContentType) (h0 : HttpHeader) :
    ∀ (chunks : List (List Nat)) (data : List Nat) (seen : Bool),
      ∃ seen2, writeChunks pmt (compState ms excl h0 data seen) chunks =
        .ok (compState ms excl h0 (data ++ chunks.join) seen2) := by
  intro chunks
  induction chunks with
  | nil =>
    intro data seen
    exact ⟨seen, by simp [writeChunks]⟩
  | cons c cs ih =>
    intro data seen
    rcases ih (data ++ c) (seen || decide (0 < c.length)) with ⟨s2, hs2⟩
    refine ⟨s2, ?_⟩
    have hstep : writeChunks pmt (compState ms excl h0 data seen) (c :: cs) =
        writeChunks pmt (compState ms excl h0 (data ++ c) (seen || decide (0 < c.length))) cs := by
      conv_lhs => rw [writeChunks]
      rw [write_compState]
    have hj : (c :: cs).join = c ++ cs.join := rfl
    rw [hstep, hs2, hj, ← List.append_assoc]

theorem writeChunks_skipState (pmt : String → Option (String × List (String × String)))
    (ms : Nat) (excl : List ParsedContentType) (h0 : HttpHeader) :
    ∀ (chunks : List (List Nat)) (rb : List Nat) (seen : Bool),
      ∃ seen2, writeChunks pmt (skipState ms excl h0 rb seen) chunks =
        .ok (skipState ms excl h0 (rb ++ chunks.join) seen2) := by
  intro chunks
  induction chunks with
  | nil =>
    intro rb seen
    exact ⟨seen, by simp [writeChunks]⟩
  | cons c cs ih =>
    intro rb seen
    rcases ih (rb ++ c) (seen || decide (0 < c.length)) with ⟨s2, hs2⟩
    refine ⟨s2, ?_⟩
    have hstep : writeChunks pmt (skipState ms excl h0 rb seen) (c :: cs) =
        writeChunks pmt (skipState ms excl h0 (rb ++ c) (seen || decide (0 < c.length))) cs := by
      conv_lhs => rw [writeChunks]
      rw [write_skipState]
    have hj : (c :: cs).join = c ++ cs.join := rfl
    rw [hstep, hs2, hj, ← List.append_assoc]

theorem writeChunks_buffer_below (pmt : String → Option (String × List (String × String)))
    (ms : Nat) (excl : List ParsedContentType) (h0 : HttpHeader)
    (hce : h0.get contentEncoding = "")
    (hct : contentTypeExcluded pmt excl h0 = .ok false) :
    ∀ (chunks : List (List Nat)) (acc : List Nat) (seen : Bool),
      acc.length + chunks.join.length < ms →
      ∃ seen2, writeChunks pmt (bufferState ms excl h0 acc seen) chunks =
        .ok (bufferState ms excl h0 (acc ++ chunks.join) seen2) := by
  intro chunks
  induction chunks with
  | nil =>
    intro acc seen _
    exact ⟨seen, by simp [writeChunks]⟩
  | cons c cs ih =>
    intro acc seen hlt
    have hj : (c :: cs).join = c ++ cs.join := rfl
    rw [hj, List.length_append] at hlt
    have hth : acc.length + c.length < ms := by omega
    have hlt2 : (acc ++ c).length + cs.join.length < ms := by
      simp only [List.length_append]
      omega
    rcases ih (acc ++ c) (seen || decide (0 < c.length)) hlt2 with ⟨s2, hs2⟩
    refine ⟨s2, ?_⟩
    have hstep : writeChunks pmt (bufferState ms excl h0 acc seen) (c :: cs) =
        writeChunks pmt (bufferState ms excl h0 (acc ++ c) (seen || decide (0 < c.length))) cs := by
      conv_lhs => rw [writeChunks]
      rw [write_bufferState pmt ms excl h0 acc seen c hce hct, if_pos hth]
    rw [hstep, hs2, hj, ← List.append_assoc]

theorem writeChunks_buffer_cross (pmt : String → Option (String × List (String × String)))
    (ms : Nat) (excl : List ParsedContentType) (h0 : HttpHeader)
    (hce : h0.get contentEncoding = "")
    (hct : contentTypeExcluded pmt excl h0 = .ok false) :
    ∀ (chunks : List (List Nat)) (acc : List Nat) (seen : Bool),
      acc.length < ms →
      ms ≤ acc.length + chunks.join.length →
      ∃ seen2, writeChunks pmt (bufferState ms excl h0 acc seen) chunks =
        .ok (compState ms excl h0 (acc ++ chunks.join) seen2) := by
  intro chunks
  induction chunks with
  | nil =>
    intro acc seen hacc hge
    exact absurd hge (by simp; omega)
  | cons c cs ih =>
    intro acc seen hacc hge
    have hj : (c :: cs).join = c ++ cs.join := rfl
    rw [hj, List.length_append] at hge
    by_cases hth : acc.length + c.length < ms
    · have hacc2 : (acc ++ c).length < ms := by
        simp only [List.length_append]
        omega
      have hge2 : ms ≤ (acc ++ c).length + cs.join.length := by
        simp only [List.length_append]
        omega
      rcases ih (acc ++ c) (seen || decide (0 < c.length)) hacc2 hge2 with ⟨s2, hs2⟩
      refine ⟨s2, ?_⟩
      have hstep : writeChunks pmt (bufferState ms excl h0 acc seen) (c :: cs) =
          writeChunks pmt (bufferState ms excl h0 (acc ++ c) (seen || decide (0 < c.length))) cs := by
        conv_lhs => rw [writeChunks]
        rw [write_bufferState pmt ms excl h0 acc seen c hce hct, if_pos hth]
      rw [hstep, hs2, hj, ← List.append_assoc]
    · rcases writeChunks_compState pmt ms excl h0 cs (acc ++ c)
        (seen || decide (0 < c.length)) with ⟨s2, hs2⟩
      refine ⟨s2, ?_⟩
      have hstep : writeChunks pmt (bufferState ms excl h0 acc seen) (c :: cs) =
          writeChunks pmt (compState ms excl h0 (acc ++ c) (seen || decide (0 < c.length))) cs := by
        conv_lhs => rw [writeChunks]
        rw [write_bufferState pmt ms excl h0 acc seen c hce hct, if_neg hth]
      rw [hstep, hs2, hj, ← List.append_assoc]

theorem close_compState (ms : Nat) (excl : List ParsedContentType) (h0 : HttpHeader)
    (data : List Nat) (seen : Bool) :
    (compState ms excl h0 data seen).close =
      { compState ms excl h0 data seen with bwClosed := true } := by
  unfold BrotliResponseWriter.close
  simp [compState]

theorem close_bufferState (ms : Nat) (excl : List ParsedContentType) (h0 : HttpHeader)
    (acc : List Nat) (seen : Bool) :
    (bufferState ms excl h0 acc seen).close =
      { bufferState ms excl h0 acc seen with
          rwStatusWritten := some 200, headersSent := true, rwBody := acc } := by
  unfold BrotliResponseWriter.close
  cases acc with
  | nil => simp [bufferState]
  | cons a as => simp [bufferState]

theorem close_skipState (ms : Nat) (excl : List ParsedContentType) (h0 : HttpHeader)
    (rb : List Nat) (seen : Bool) :
    (skipState ms excl h0 rb seen).close =
      { skipState ms excl h0 rb seen with
          rwStatusWritten := some 200, headersSent := true } := by
  unfold BrotliResponseWriter.close
  simp [skipState]

/-- **C7**: for a body whose total length reaches the `minSize` threshold,
written through the brotli response writer in any split into `Write` calls,
with no prior `Content-Encoding` and a non-excluded content type, the run
succeeds and after `Close` the encoder has been fed exactly the full body and
closed (so brotli-decoding the emitted body recovers it), nothing bypassed the
encoder, and the response carries `Content-Encoding: br` and
`Vary: Accept-Encoding` with the `Content-Length` header removed. -/
theorem brotli_writer_roundtrip
    (pmt : String → Option (String × List (String × String)))
    (ms : Nat) (excl : List ParsedContentType) (h0 : HttpHeader)
    (chunks : List (List Nat))
    (hms : 0 < ms)
    (hce : h0.get contentEncoding = "")
    (hct : contentTypeExcluded pmt excl h0 = .ok false)
    (hth : ms ≤ chunks.join.length) :
    ∃ b, writeChunks pmt (newBrotliResponseWriter ms excl h0) chunks = .ok b ∧
      b.close.bwData = chunks.join ∧
      b.close.bwClosed = true ∧
      b.close.rwBody = [] ∧
      b.close.rwHeader.get contentEncoding = "br" ∧
      "Accept-Encoding" ∈ b.close.rwHeader.values vary ∧
      b.close.rwHeader.values contentLength = [] := by
  obtain ⟨s2, hrun⟩ := writeChunks_buffer_cross pmt ms excl h0 hce hct chunks [] false
    hms (by simpa using hth)
  rw [List.nil_append] at hrun
  refine ⟨compState ms excl h0 chunks.join s2, ?_, ?_, ?_, ?_, ?_, ?_, ?_⟩
  · rw [newBrotliResponseWriter_eq_bufferState]
    exact hrun
  · rw [close_compState]
    rfl
  · rw [close_compState]
  · rw [close_compState]
    rfl
  · rw [close_compState]
    exact compressedHeader_get_contentEncoding h0
  · rw [close_compState]
    exact compressedHeader_vary h0
  · rw [close_compState]
    exact compressedHeader_contentLength h0

theorem brotli_writer_roundtrip_witness :
    ∃ b, writeChunks (fun s => some (s, [])) (newBrotliResponseWriter 2 [] (HttpHeader.mk []))
        [[1], [2, 3]] = .ok b ∧
      b.close.bwData = [[1], [2, 3]].join ∧
      b.close.bwClosed = true ∧
      b.close.rwBody = [] ∧
      b.close.rwHeader.get contentEncoding = "br" ∧
      "Accept-Encoding" ∈ b.close.rwHeader.values vary ∧
      b.close.rwHeader.values contentLength = [] :=
  brotli_writer_roundtrip (fun s => some (s, [])) 2 [] (HttpHeader.mk []) [[1], [2, 3]]
    (by decide) rfl rfl (by decide)

/-- **C8**: when the whole body stays below the `minSize` threshold, or the
`Content-Type` matches an excluded media type, the brotli response writer
passes the body through to the underlying writer byte-identically (flushed on
`Close` in the buffered case) and never feeds the encoder; the response
headers are left untouched, so no `Content-Encoding: identity` (nor any other
value) is set — the final `Content-Encoding` is the original, empty, value. -/
theorem brotli_writer_passthrough
    (pmt : String → Option (String × List (String × String)))
    (ms : Nat) (excl : List ParsedContentType) (h0 : HttpHeader)
    (chunks : List (List Nat))
    (hce : h0.get contentEncoding = "") :
    (contentTypeExcluded pmt excl h0 = .ok false → chunks.join.length < ms →
      ∃ b, writeChunks pmt (newBrotliResponseWriter ms excl h0) chunks = .ok b ∧
        b.close.rwBody = chunks.join ∧
        b.close.rwHeader = h0 ∧
        b.close.bwData = [] ∧
        b.close.rwHeader.get contentEncoding = "") ∧
    (contentTypeExcluded pmt excl h0 = .ok true → ∀ c cs, chunks = c :: cs →
      ∃ b, writeChunks pmt (newBrotliResponseWriter ms excl h0) chunks = .ok b ∧
        b.close.rwBody = chunks.join ∧
        b.close.rwHeader = h0 ∧
        b.close.bwData = [] ∧
        b.close.rwHeader.get contentEncoding = "") := by
  constructor
  · intro hct hlt
    obtain ⟨s2, hrun⟩ := writeChunks_buffer_below pmt ms excl h0 hce hct chunks [] false
      (by simpa using hlt)
    rw [List.nil_append] at hrun
    refine ⟨bufferState ms excl h0 chunks.join s2, ?_, ?_, ?_, ?_, ?_⟩
    · rw [newBrotliResponseWriter_eq_bufferState]
      exact hrun
    · rw [close_bufferState]
    · rw [close_bufferState]
      rfl
    · rw [close_bufferState]
      rfl
    · rw [close_bufferState]
      exact hce
  · intro hct c cs hchunks
    subst hchunks
    obtain ⟨s2, hrun⟩ := writeChunks_skipState pmt ms excl h0 cs c
      (false || decide (0 < c.length))
    have hstep : writeChunks pmt (bufferState ms excl h0 [] false) (c :: cs) =
        writeChunks pmt (skipState ms excl h0 c (false || decide (0 < c.length))) cs := by
      conv_lhs => rw [writeChunks]
      rw [write_bufferState_excluded pmt ms excl h0 false c hce hct]
    have hj : (c :: cs).join = c ++ cs.join := rfl
    refine ⟨skipState ms excl h0 (c ++ cs.join) s2, ?_, ?_, ?_, ?_, ?_⟩
    · rw [newBrotliResponseWriter_eq_bufferState, hstep, hrun]
    · rw [close_skipState, hj]
      rfl
    · rw [close_skipState]
      rfl
    · rw [close_skipState]
      rfl
    · rw [close_skipState]
      exact hce

theorem brotli_writer_passthrough_witness :
    ∃ b, writeChunks (fun s => some (s, [])) (newBrotliResponseWriter 10 [] (HttpHeader.mk []))
        [[1, 2]] = .ok b ∧
      b.close.rwBody = [[1, 2]].join ∧
      b.close.rwHeader = HttpHeader.mk [] ∧
      b.close.bwData = [] ∧
      b.close.rwHeader.get contentEncoding = "" :=
  (brotli_writer_passthrough (fun s => some (s, [])) 10 [] (HttpHeader.mk []) [[1, 2]]
    rfl).1 rfl (by decide)

/-- **C8**, counterexample to the original claim: a two-byte body below a
threshold of 10 is passed through unchanged, but the final `Content-Encoding`
header is the empty string, not `identity` — the writer never sets it. -/
theorem brotli_writer_no_identity_header :
    writeChunks (fun s => some (s, []))
        (newBrotliResponseWriter 10 [] (HttpHeader.mk [])) [[1, 2]] =
      .ok (bufferState 10 [] (HttpHeader.mk []) [1, 2] true) ∧
    (bufferState 10 [] (HttpHeader.mk []) [1, 2] true).close.rwBody = [1, 2] ∧
    (bufferState 10 [] (HttpHeader.mk []) [1, 2] true).close.rwHeader.get contentEncoding = "" ∧
    ("" : String) ≠ "identity" :=
  ⟨rfl, rfl, rfl, by decide⟩

/-! ## Claim C10: not-found translation in the Kubernetes client

A lister lookup (client-go, external) returns a resource pointer and an
error; the error is modelled as `Option KubeError`, distinguishing the
kubernetes not-found error from any other failure.  The listers themselves
are parameters of the client wrapper, keyed by the lookup-namespace
identifier, the namespace and the name. -/

/-- A kubernetes API error: the not-found error or any other failure. -/
inductive KubeError where
  | notFound
  | other (msg : String)
deriving DecidableEq, Repr

/-- `kerror.IsNotFound`. -/
def isNotFoundErr : Option KubeError → Bool
  | some .notFound => true
  | _ => false

/-- Embedding of `translateNotFoundError` (part_001). -/
def translateNotFoundError (err : Option KubeError) : Bool × Option KubeError :=
  if isNotFoundErr err then (false, none)
  else (err.isNone, err)

/-- Embedding of `clientWrapper`, restricted to the fields `GetService` and
`GetSecret` read; the informer listers are function parameters. -/
structure ClientWrapper (α σ : Type) where
  isNamespaceAll : Bool
  watchedNamespaces : List String
  serviceLister : String → String → String → Option α × Option KubeError
  secretLister : String → String → String → Option σ × Option KubeError

/-- Embedding of `clientWrapper.lookupNamespace` (`metav1.NamespaceAll` is
the empty string). -/
def ClientWrapper.lookupNamespace {α σ : Type} (c : ClientWrapper α σ)
    (ns : String) : String :=
  if c.isNamespaceAll then "" else ns

/-- Embedding of `clientWrapper.isWatchedNamespace`. -/
def ClientWrapper.isWatchedNamespace {α σ : Type} (c : ClientWrapper α σ)
    (ns : String) : Bool :=
  if c.isNamespaceAll then true else c.watchedNamespaces.contains ns

/-- Embedding of `clientWrapper.GetService`. -/
def ClientWrapper.GetService {α σ : Type} (c : ClientWrapper α σ)
    (ns name : String) : Option α × Bool × Option KubeError :=
  if !c.isWatchedNamespace ns then
    (none, false, some (.other ("failed to get service " ++ ns ++ "/" ++ name ++
      ": namespace is not within watched namespaces")))
  else
    let r := c.serviceLister (c.lookupNamespace ns) ns name
    let t := translateNotFoundError r.2
    (r.1, t.1, t.2)

/-- Embedding of `clientWrapper.GetSecret`. -/
def ClientWrapper.GetSecret {α σ : Type} (c : ClientWrapper α σ)
    (ns name : String) : Option σ × Bool × Option KubeError :=
  if !c.isWatchedNamespace ns then
    (none, false, some (.other ("failed to get secret " ++ ns ++ "/" ++ name ++
      ": namespace is not within watched namespaces")))
  else
    let r := c.secretLister (c.lookupNamespace ns) ns name
    let t := translateNotFoundError r.2
    (r.1, t.1, t.2)

/-- **C10**: in a watched namespace, a not-found lister error comes back from
`GetService`/`GetSecret` as `(nil, exists = false, nil error)`; a successful
lookup as `(resource, true, nil error)`; and a non-nil error is returned only
when the namespace is outside the watched set or the lister failed with an
error other than not-found. -/
theorem client_not_found_translation {α σ : Type} (c : ClientWrapper α σ)
    (ns name : String) :
    (c.isWatchedNamespace ns = true →
      c.serviceLister (c.lookupNamespace ns) ns name = (none, some .notFound) →
      c.GetService ns name = (none, false, none)) ∧
    (c.isWatchedNamespace ns = true →
      c.secretLister (c.lookupNamespace ns) ns name = (none, some .notFound) →
      c.GetSecret ns name = (none, false, none)) ∧
    (c.isWatchedNamespace ns = true → ∀ v : Option α,
      c.serviceLister (c.lookupNamespace ns) ns name = (v, none) →
      c.GetService ns name = (v, true, none)) ∧
    (∀ e, (c.GetService ns name).2.2 = some e →
      c.isWatchedNamespace ns = false ∨ ∃ m, e = .other m) ∧
    (∀ e, (c.GetSecret ns name).2.2 = some e →
      c.isWatchedNamespace ns = false ∨ ∃ m, e = .other m) := by
  refine ⟨?_, ?_, ?_, ?_, ?_⟩
  · intro hw hl
    unfold ClientWrapper.GetService
    rw [hw, hl]
    rfl
  · intro hw hl
    unfold ClientWrapper.GetSecret
    rw [hw, hl]
    rfl
  · intro hw v hl
    unfold ClientWrapper.GetService
    rw [hw, hl]
    rfl
  · intro e he
    unfold ClientWrapper.GetService at he
    cases hw : c.isWatchedNamespace ns with
    | false => exact Or.inl rfl
    | true =>
      rw [hw] at he
      simp only [Bool.not_true, Bool.false_eq_true, if_false] at he
      refine Or.inr ?_
      cases hr : (c.serviceLister (c.lookupNamespace ns) ns name).2 with
      | none =>
        rw [hr] at he
        exact absurd he (by simp [translateNotFoundError, isNotFoundErr])
      | some err =>
        rw [hr] at he
        cases err with
        | notFound => exact absurd he (by simp [translateNotFoundError, isNotFoundErr])
        | other m =>
          refine ⟨m, ?_⟩
          simp only [translateNotFoundError, isNotFoundErr] at he
          simp only [Option.isNone] at he
          cases he
          rfl
  · intro e he
    unfold ClientWrapper.GetSecret at he
    cases hw : c.isWatchedNamespace ns with
    | false => exact Or.inl rfl
    | true =>
      rw [hw] at he
      simp only [Bool.not_true, Bool.false_eq_true, if_false] at he
      refine Or.inr ?_
      cases hr : (c.secretLister (c.lookupNamespace ns) ns name).2 with
      | none =>
        rw [hr] at he
        exact absurd he (by simp [translateNotFoundError, isNotFoundErr])
      | some err =>
        rw [hr] at he
        cases err with
        | notFound => exact absurd he (by simp [translateNotFoundError, isNotFoundErr])
        | other m =>
          refine ⟨m, ?_⟩
          simp only [translateNotFoundError, isNotFoundErr] at he
          simp only [Option.isNone] at he
          cases he
          rfl

theorem client_not_found_translation_witness :
    (ClientWrapper.GetService
      (⟨false, ["default"], fun _ _ _ => (none, some KubeError.notFound),
        fun _ _ _ => (none, some KubeError.notFound)⟩ : ClientWrapper Nat Nat)
      "default" "svc" = (none, false, none)) ∧
    (ClientWrapper.GetSecret
      (⟨false, ["default"], fun _ _ _ => (none, some KubeError.notFound),
        fun _ _ _ => (none, some KubeError.notFound)⟩ : ClientWrapper Nat Nat)
      "default" "sec" = (none, false, none)) :=
  ⟨(client_not_found_translation
      (⟨false, ["default"], fun _ _ _ => (none, some KubeError.notFound),
        fun _ _ _ => (none, some KubeError.notFound)⟩ : ClientWrapper Nat Nat)
      "default" "svc").1 (by decide) rfl,
   (client_not_found_translation
      (⟨false, ["default"], fun _ _ _ => (none, some KubeError.notFound),
        fun _ _ _ => (none, some KubeError.notFound)⟩ : ClientWrapper Nat Nat)
      "default" "sec").2.1 (by decide) rfl⟩

end Traefik
